import Mathlib

/-!
# TTT_Baxter: the Cell / Board data model and the board cell delimitation

A shallow embedding of `lib/src/baxter_tictactoe/tictactoe_utils.cpp` and of the
contour selection and grid ordering of
`src/board_cells_delimitation/board_cells_delimitation_auto.cpp`.

* A `cv::Point` is a pair of integers, a `Contour` a list of points.
* A `Cell` is a record of the four data members of the C++ class.  A member
  function that mutates the object and returns a `bool` becomes a function
  `Cell → Bool × Cell` (returned value, object afterwards).
* `int` members are mathematical integers; the only arithmetic the class does
  on them (`+ 1` in `setState`) is wrapped to the 32-bit two's complement range.
* A `Board` is the `std::vector<Cell> cells`, as a list.  A loop
  `for (i = 0; i < size; ++i)` over the vector is a recursion over the list,
  visiting the cells in index order and keeping the early `return`s.
-/

namespace ttt

/-! ## Constants and types of the (absent) header -/

/-- Modelled from the spec: the header macro `COL_RED` (absent from the sources),
the token of colour A, written `red` in the log messages. -/
def COL_RED : String := "red"

/-- Modelled from the spec: the header macro `COL_BLUE` (absent from the sources),
the token of colour B. -/
def COL_BLUE : String := "blue"

/-- Modelled from the spec: the header macro `COL_EMPTY` (absent from the sources),
the token of the empty state. -/
def COL_EMPTY : String := "empty"

/-- Largest value of a C++ `int` (32 bit). -/
def INT_MAX : Int := 2147483647

/-- Smallest value of a C++ `int` (32 bit). -/
def INT_MIN : Int := -2147483648

/-- Result of an `int` computation, reduced to the 32-bit two's complement range. -/
def wrapInt (x : Int) : Int := (x + 2147483648) % 4294967296 - 2147483648

/-- The type `cv::Point`: integer coordinates `(x, y)`. -/
abbrev Point := Int × Int

/-- The type `Contour`: `std::vector<cv::Point>`. -/
abbrev Contour := List Point

/-- Data members of `class Cell`. -/
structure Cell where
  contour : Contour
  state : String
  area_red : Int
  area_blue : Int
deriving DecidableEq, Repr

namespace Cell

/-- Constructor `Cell::Cell(std::string _s, int _ar, int _ab)`: the contour is cleared. -/
def mk3 (_s : String) (_ar _ab : Int) : Cell :=
  { contour := [], state := _s, area_red := _ar, area_blue := _ab }

/-- Modelled from the spec: the header accessor `getState()` (absent from the
sources), the current state token of the cell. -/
def getState (c : Cell) : String := c.state

/-- Modelled from the spec: the header accessor `getRedArea()` (absent from the
sources), the evidence counter of colour A. -/
def getRedArea (c : Cell) : Int := c.area_red

/-- Modelled from the spec: the header accessor `getBlueArea()` (absent from the
sources), the evidence counter of colour B. -/
def getBlueArea (c : Cell) : Int := c.area_blue

/-- Modelled from the spec: the header setter `setRedArea(int)` (absent from the
sources), one of the Cell evidence setters. -/
def setRedArea (c : Cell) (_a : Int) : Cell := { c with area_red := _a }

/-- Modelled from the spec: the header setter `setBlueArea(int)` (absent from the
sources), one of the Cell evidence setters. -/
def setBlueArea (c : Cell) (_a : Int) : Cell := { c with area_blue := _a }

/-- The comparison `Cell::operator==`: only the state strings are compared. -/
def eq (c _c : Cell) : Bool := decide (c.state = _c.state)

/-- The comparison `Cell::operator!=`. -/
def ne (c _c : Cell) : Bool := !(eq c _c)

/-- The member `Cell::resetState()`. -/
def resetState (c : Cell) : Bool × Cell :=
  (true, { c with state := COL_EMPTY, area_red := 0, area_blue := 0 })

/-- The member `Cell::resetCell()`: `resetState()` then `contour.clear()`. -/
def resetCell (c : Cell) : Bool × Cell :=
  let c1 := (resetState c).2
  (true, { c1 with contour := [] })

/-- The member `Cell::setState(const string& _s)`. -/
def setState (c : Cell) (_s : String) : Bool × Cell :=
  if _s = COL_RED ∨ _s = COL_BLUE ∨ _s = COL_EMPTY then
    let c1 : Cell := { c with state := _s }
    if _s = COL_RED ∧ getRedArea c1 < getBlueArea c1 then
      (true, setRedArea c1 (wrapInt (getBlueArea c1 + 1)))
    else if _s = COL_BLUE ∧ getBlueArea c1 < getRedArea c1 then
      (true, setBlueArea c1 (wrapInt (getRedArea c1 + 1)))
    else if _s = COL_EMPTY then
      (true, (resetState c1).2)
    else
      (true, c1)
  else
    (false, c)

/-- The member `Cell::computeState()`; an `int` used as a condition is true when
it is not zero. -/
def computeState (c : Cell) : Bool × Cell :=
  if c.area_red ≠ 0 ∨ c.area_blue ≠ 0 then
    let c1 := if c.area_red > c.area_blue then (setState c COL_RED).2 else (setState c COL_BLUE).2
    (true, c1)
  else
    (false, (setState c COL_EMPTY).2)

end Cell

/-- Data members of `class Board`: the vector `cells`. -/
structure Board where
  cells : List Cell
deriving DecidableEq, Repr

/-- Modelled from the spec: one entry of the external board-state schema (the
message type `MsgCell` is absent from the sources); it carries one state token. -/
structure MsgCell where
  state : String
deriving DecidableEq, Repr

/-- Modelled from the spec: the external board-state schema (the message type
`MsgBoard` is absent from the sources), an ordered list of state tokens.  Its
header field plays no part in the conversions and is left out. -/
structure MsgBoard where
  cells : List MsgCell
deriving DecidableEq, Repr

namespace Board

/-- Modelled from the spec: the header accessor `getNumCells()` (absent from the
sources), the number of cells of the board. -/
def getNumCells (b : Board) : Nat := b.cells.length

/-- The element access `cells[i]`.  The source does not check the index; a read
outside the vector is undefined there and yields a default-constructed cell here. -/
def cellAt (b : Board) (i : Nat) : Cell := b.cells.getD i (Cell.mk3 COL_EMPTY 0 0)

/-- Modelled from the spec: the header accessor `getCellState(i)` (absent from the
sources), the state token of cell `i`. -/
def getCellState (b : Board) (i : Nat) : String := Cell.getState (cellAt b i)

/-- The member `Board::addCell`: `cells.push_back(_c)`. -/
def addCell (b : Board) (_c : Cell) : Bool × Board :=
  (true, { cells := b.cells ++ [_c] })

/-- The loop of `Board::operator==` over two vectors of the same size: the first
index at which the cells differ returns false. -/
def eqLoop : List Cell → List Cell → Bool
  | c :: cs, d :: ds => if Cell.ne c d then false else eqLoop cs ds
  | _, _ => true

/-- The comparison `Board::operator==`. -/
def eq (b _b : Board) : Bool :=
  if b.cells.length ≠ _b.cells.length then false
  else eqLoop b.cells _b.cells

/-- The comparison `Board::operator!=`. -/
def ne (b _b : Board) : Bool := !(eq b _b)

/-- The member `Board::resetCellStates()`. -/
def resetCellStates (b : Board) : Bool × Board :=
  if getNumCells b = 0 then (false, b)
  else (true, { cells := b.cells.map (fun c => (Cell.resetState c).2) })

/-- The member `Board::resetCells()`. -/
def resetCells (b : Board) : Bool × Board :=
  if getNumCells b = 0 then (false, b)
  else (true, { cells := b.cells.map (fun c => (Cell.resetCell c).2) })

/-- The member `Board::resetBoard()`: `cells.clear()`. -/
def resetBoard (_ : Board) : Bool × Board := (true, { cells := [] })

/-- The member `Board::computeState()`. -/
def computeState (b : Board) : Bool × Board :=
  if getNumCells b = 0 then (false, b)
  else (true, { cells := b.cells.map (fun c => (Cell.computeState c).2) })

/-- The loop of `Board::isFull()`. -/
def isFullLoop : List Cell → Bool
  | [] => true
  | c :: cs => if Cell.getState c = COL_EMPTY then false else isFullLoop cs

/-- The member `Board::isFull()`. -/
def isFull (b : Board) : Bool := isFullLoop b.cells

/-- The loop of `Board::isEmpty()`. -/
def isEmptyLoop : List Cell → Bool
  | [] => true
  | c :: cs =>
    if Cell.getState c = COL_RED ∨ Cell.getState c = COL_BLUE then false else isEmptyLoop cs

/-- The member `Board::isEmpty()`. -/
def isEmpty (b : Board) : Bool := isEmptyLoop b.cells

/-- One iteration of the loop of `Board::fromMsgBoard`: a valid token appends a
cell, any other token is only logged. -/
def fromMsgStep (b : Board) (m : MsgCell) : Board :=
  if m.state = COL_RED then (addCell b (Cell.mk3 COL_RED 1 0)).2
  else if m.state = COL_BLUE then (addCell b (Cell.mk3 COL_BLUE 0 1)).2
  else if m.state = COL_EMPTY then (addCell b (Cell.mk3 COL_EMPTY 0 0)).2
  else b

/-- The member `Board::fromMsgBoard`: `resetBoard()`, then one step per token
of the message, in order. -/
def fromMsgBoard (b : Board) (msgb : MsgBoard) : Board :=
  msgb.cells.foldl fromMsgStep (resetBoard b).2

/-- The member `Board::toMsgBoard()`.  The number of slots of the message type,
`res.cells.size()`, is fixed by the absent message declaration and is the
parameter `slots`; a fresh message holds `slots` default cells.  The result is
the returned message and the board afterwards. -/
def toMsgBoard (slots : Nat) (b : Board) : MsgBoard × Board :=
  let res : MsgBoard := { cells := List.replicate slots { state := "" } }
  if getNumCells b = 0 ∨ getNumCells b ≠ res.cells.length then
    ({ cells := res.cells.map (fun m => { m with state := COL_EMPTY }) }, b)
  else if getNumCells b = res.cells.length then
    ({ cells := res.cells.enum.map (fun p => { p.2 with state := getCellState b p.1 }) }, b)
  else
    (res, b)

/-- The member `Board::setCellState(i, _s)`: `cells[i].setState(_s)`. -/
def setCellState (b : Board) (i : Nat) (_s : String) : Bool × Board :=
  let r := Cell.setState (cellAt b i) _s
  (r.1, { cells := b.cells.set i r.2 })

/-- The sequence of state tokens of a board, cell by cell. -/
def states (b : Board) : List String := b.cells.map Cell.getState

end Board

/-- The sequence of state tokens of a message, slot by slot. -/
def MsgBoard.tokens (m : MsgBoard) : List String := m.cells.map MsgCell.state

/-- A token is valid when it is one of the three state tokens. -/
def validToken (s : String) : Prop := s = COL_RED ∨ s = COL_BLUE ∨ s = COL_EMPTY

instance (s : String) : Decidable (validToken s) := by
  unfold validToken; infer_instance

/-! ## Geometry: moments, centroids and areas

The image-geometry library (`cv::moments`, `cv::contourArea`) is external to
the repository: the functions below take it as a parameter.  A `double` is a
rational number; a division by zero and a conversion to `int` outside the `int`
range have no defined value, which is the result `none`. -/

/-- The three fields of `cv::Moments` the sources read. -/
structure Moments where
  m00 : ℚ
  m10 : ℚ
  m01 : ℚ

/-- The quotient `a / b` of two `double`s; there is no value to convert to an
`int` when `b` is zero. -/
def divide (a b : ℚ) : Option ℚ := if b = 0 then none else some (a / b)

/-- Conversion of a `double` to `int`: truncation toward zero, defined inside
the `int` range only. -/
def doubleToInt (q : ℚ) : Option Int :=
  if INT_MIN ≤ Int.tdiv q.num q.den ∧ Int.tdiv q.num q.den ≤ INT_MAX then
    some (Int.tdiv q.num q.den)
  else none

/-- The sums `a00`, `a10`, `a01` of Green's formula along the edges from a
point to each following point of a polygon. -/
def greenSums : Point → List Point → Int × Int × Int
  | _, [] => (0, 0, 0)
  | p, q :: rest =>
    let d := p.1 * q.2 - q.1 * p.2
    let s := greenSums q rest
    (d + s.1, d * (p.1 + q.1) + s.2.1, d * (p.2 + q.2) + s.2.2)

/-- Modelled from the spec: the Geometry Provider's zeroth- and first-order area
moments of a closed polygon (external library, not part of the sources), by
Green's formula; a polygon that encloses no area has all moments zero.  It is
used only to evaluate the functions below on concrete polygons. -/
def polygonMoments (c : Contour) : Moments :=
  match c.getLast? with
  | none => ⟨0, 0, 0⟩
  | some l =>
    let s := greenSums l c
    if s.1 > 0 then ⟨(s.1 : ℚ) / 2, (s.2.1 : ℚ) / 6, (s.2.2 : ℚ) / 6⟩
    else if s.1 < 0 then ⟨-(s.1 : ℚ) / 2, -(s.2.1 : ℚ) / 6, -(s.2.2 : ℚ) / 6⟩
    else ⟨0, 0, 0⟩

/-- Modelled from the spec: the Geometry Provider's area of a closed polygon
(external library, not part of the sources), the zeroth-order moment. -/
def polygonArea (c : Contour) : ℚ := (polygonMoments c).m00

namespace Cell

/-- Constructor `Cell::Cell(Contour _c, std::string _s, int _ar, int _ab)`. -/
def mk4 (_c : Contour) (_s : String) (_ar _ab : Int) : Cell :=
  { contour := _c, state := _s, area_red := _ar, area_blue := _ab }

/-- The member `Cell::getCentroid()`, with the library function `cv::moments`
as the parameter `moments`.  The result is the returned point and the cell
afterwards. -/
def getCentroid (moments : Contour → Moments) (c : Cell) : Option Point × Cell :=
  if c.contour.length > 0 then
    let mom := moments c.contour
    ((divide mom.m10 mom.m00).bind fun x =>
      (divide mom.m01 mom.m00).bind fun y =>
        (doubleToInt x).bind fun xi => (doubleToInt y).bind fun yi => some (xi, yi), c)
  else
    (some (0, 0), c)

/-- The member `Cell::getContourArea()`, with the library function
`cv::moments` as the parameter `moments`; the `double` `m00` is returned as an
`int`.  The result is the returned value and the cell afterwards. -/
def getContourArea (moments : Contour → Moments) (c : Cell) : Option Int × Cell :=
  if c.contour.length > 0 then (doubleToInt (moments c.contour).m00, c)
  else (some 0, c)

end Cell

/-! ## Board cell delimitation (`board_cells_delimitation_auto.cpp`) -/

/-- Modelled from the spec: the enumeration `Index` of the absent header, with
its two valid values `LARGEST` and `NEXT_LARGEST`. -/
inductive Index where
  | LARGEST
  | NEXT_LARGEST
deriving DecidableEq, Repr

/-- The four local variables of `cellDelimitation::getIthIndex`. -/
structure IthState where
  largest_area : ℚ
  largest_area_index : Nat
  next_largest_area : ℚ
  next_largest_area_index : Nat

/-- The body of the loop of `getIthIndex` at index `i`, where `a` is
`contourArea(contours[i], false)`. -/
def getIthStep (s : IthState) (i : Nat) (a : ℚ) : IthState :=
  if a > s.largest_area then
    { largest_area := a, largest_area_index := i,
      next_largest_area := s.largest_area, next_largest_area_index := s.largest_area_index }
  else if s.next_largest_area < a ∧ a < s.largest_area then
    { s with next_largest_area := a, next_largest_area_index := i }
  else s

/-- The loop of `getIthIndex` from index `i` on, over the contours not yet visited. -/
def getIthLoop (contourArea : Contour → ℚ) : List Contour → Nat → IthState → IthState
  | [], _, s => s
  | c :: cs, i, s => getIthLoop contourArea cs (i + 1) (getIthStep s i (contourArea c))

/-- The function `cellDelimitation::getIthIndex`, with the library function
`contourArea` as a parameter. -/
def getIthIndex (contourArea : Contour → ℚ) (contours : List Contour) (ith : Index) : Nat :=
  let s := getIthLoop contourArea contours 0 ⟨0, 0, 0, 0⟩
  if ith = Index.LARGEST then s.largest_area_index else s.next_largest_area_index

/-- The loop invariant of `getIthIndex` after the contours of index below `k`,
where `f j` is the area of contour `j`: `largest_area` bounds the areas seen and
is attained at `largest_area_index` when positive; `next_largest_area` bounds
the areas seen that are strictly below `largest_area` and is attained at
`next_largest_area_index` when positive; an index whose area variable is still
0 is still 0; the areas before `largest_area_index` are strictly below
`largest_area`. -/
def IthInv (f : Nat → ℚ) (k : Nat) (s : IthState) : Prop :=
  (∀ j, j < k → f j ≤ s.largest_area) ∧
  0 ≤ s.largest_area ∧
  (0 < s.largest_area → s.largest_area_index < k ∧ f s.largest_area_index = s.largest_area) ∧
  (s.largest_area = 0 → s.largest_area_index = 0) ∧
  0 ≤ s.next_largest_area ∧
  (0 < s.next_largest_area →
    s.next_largest_area_index < k ∧ f s.next_largest_area_index = s.next_largest_area ∧
    s.next_largest_area < s.largest_area) ∧
  (∀ j, j < k → f j < s.largest_area → f j ≤ s.next_largest_area) ∧
  (s.next_largest_area = 0 → s.next_largest_area_index = 0) ∧
  (∀ j, j < s.largest_area_index → f j < s.largest_area)

/-- The function `cellDelimitation::findCentroid`, with the library function
`cv::moments` as the parameter `moments`. -/
def findCentroid (moments : Contour → Moments) (contour : Contour) : Option Point :=
  (divide (moments contour).m10 (moments contour).m00).bind fun x =>
    (divide (moments contour).m01 (moments contour).m00).bind fun y =>
      (doubleToInt x).bind fun xi => (doubleToInt y).bind fun yi => some (xi, yi)

/-- One iteration of the scan of `imageCallback` for the leftmost and the
rightmost centroid. -/
def scanStep (lr : Point × Point) (p : Point) : Point × Point :=
  (if p.1 < lr.1.1 then p else lr.1, if p.1 > lr.2.1 then p else lr.2)

/-- The orientation test of `imageCallback`:
`(rightmost_x.x - highest_y.x) > (highest_y.x - leftmost_x.x)`, where
`highest_y` is the last centroid.  Reading `cell_centroids[0]` of an empty
vector is undefined. -/
def isWide (cell_centroids : List Point) : Option Bool :=
  match cell_centroids.head?, cell_centroids.getLast? with
  | some first, some highest_y =>
    let lr := cell_centroids.foldl scanStep (first, first)
    some (decide (wrapInt (lr.2.1 - highest_y.1) > wrapInt (highest_y.1 - lr.1.1)))
  | _, _ => none

/-- The values `n, n - 1, ..., 1` of a loop `for (i = n; i >= 1; i--)`. -/
def countDown : Nat → List Nat
  | 0 => []
  | k + 1 => (k + 1) :: countDown k

/-- The raw indices `i * side_len - j` the square regime of `imageCallback`
reads, in loop order, for `n` contours; `side_len` is `sqrt(n + 1)` converted
to `int`. -/
def squareIndices (n : Nat) : List Int :=
  let side_len := Nat.sqrt (n + 1)
  (countDown side_len).flatMap fun (i : Nat) =>
    (countDown side_len).map fun (j : Nat) => (i : Int) * (side_len : Int) - (j : Int)

/-- The reads `contours[k]` for a list of raw indices, in order; a read outside
the vector is undefined. -/
def readAll (contours : List Contour) : List Int → Option (List Contour)
  | [] => some []
  | k :: ks =>
    match (if 0 ≤ k then contours[k.toNat]? else none), readAll contours ks with
    | some c, some cs => some (c :: cs)
    | _, _ => none

/-- The grid-ordering step of `imageCallback`: the contours handed to
`board.cells.push_back`, in the order of the calls. -/
def gridOrder (contours : List Contour) (cell_centroids : List Point) : Option (List Contour) :=
  match isWide cell_centroids with
  | none => none
  | some true => some contours.reverse
  | some false => readAll contours (squareIndices contours.length)

/-- The effect of the grid-ordering step of `imageCallback` on the member
`board`: each emitted contour is pushed as `Cell cell(contour)`, whose state
and counters are those of a default-constructed cell. -/
def orderingStep (board : Board) (contours : List Contour) (cell_centroids : List Point) :
    Option Board :=
  (gridOrder contours cell_centroids).map fun emitted =>
    { cells := board.cells ++ emitted.map fun c => Cell.mk4 c COL_EMPTY 0 0 }

/-- The nine centroids `(100 * c, 100 * r)` at raw index `3 * r + c`. -/
def rasterCentroids : List Point :=
  [(0, 0), (100, 0), (200, 0), (0, 100), (100, 100), (200, 100), (0, 200), (100, 200), (200, 200)]

/-- The square of side 80 centred at `(x, y)`, as a contour. -/
def squareAt (x y : Int) : Contour :=
  [(x - 40, y - 40), (x + 40, y - 40), (x + 40, y + 40), (x - 40, y + 40)]

/-- Nine square polygons in raster scan order: raw index `3 * r + c` is the
square centred at `(100 * c, 100 * r)`. -/
def rasterSquares : List Contour := rasterCentroids.map fun p => squareAt p.1 p.2

/-! ## Cell: theorems -/

/-- Adding one to an `int` below the largest value does not wrap. -/
theorem wrapInt_succ_eq (x : Int) (h0 : 0 ≤ x) (h1 : x < INT_MAX) : wrapInt (x + 1) = x + 1 := by
  unfold INT_MAX at h1
  unfold wrapInt
  omega

/-- C1: for a cell whose two counters are non-negative and below the largest
`int`, `setState(red)` leaves `area_red >= area_blue`, `setState(blue)` leaves
`area_blue >= area_red`, and `setState(empty)` and `resetState()` leave both
counters at 0 with state `empty`. -/
theorem C1_setState_evidence_invariant (c : Cell)
    (hr0 : 0 ≤ c.area_red) (hr1 : c.area_red < INT_MAX)
    (hb0 : 0 ≤ c.area_blue) (hb1 : c.area_blue < INT_MAX) :
    (Cell.setState c COL_RED).2.area_red ≥ (Cell.setState c COL_RED).2.area_blue ∧
    (Cell.setState c COL_BLUE).2.area_blue ≥ (Cell.setState c COL_BLUE).2.area_red ∧
    ((Cell.setState c COL_EMPTY).2.area_red = 0 ∧ (Cell.setState c COL_EMPTY).2.area_blue = 0 ∧
      (Cell.setState c COL_EMPTY).2.state = COL_EMPTY) ∧
    ((Cell.resetState c).2.area_red = 0 ∧ (Cell.resetState c).2.area_blue = 0 ∧
      (Cell.resetState c).2.state = COL_EMPTY) := by
  have wr := wrapInt_succ_eq c.area_red hr0 hr1
  have wb := wrapInt_succ_eq c.area_blue hb0 hb1
  refine ⟨?_, ?_, ?_, ?_⟩
  · by_cases h : c.area_red < c.area_blue
    · simp [Cell.setState, Cell.getRedArea, Cell.getBlueArea, Cell.setRedArea, COL_RED, COL_BLUE,
        COL_EMPTY, h, wb]
    · simp [Cell.setState, Cell.getRedArea, Cell.getBlueArea, Cell.setRedArea, Cell.setBlueArea,
        Cell.resetState, COL_RED, COL_BLUE, COL_EMPTY, h]
      omega
  · by_cases h : c.area_blue < c.area_red
    · simp [Cell.setState, Cell.getRedArea, Cell.getBlueArea, Cell.setBlueArea, COL_RED, COL_BLUE,
        COL_EMPTY, h, wr]
    · simp [Cell.setState, Cell.getRedArea, Cell.getBlueArea, Cell.setRedArea, Cell.setBlueArea,
        Cell.resetState, COL_RED, COL_BLUE, COL_EMPTY, h]
      omega
  · simp [Cell.setState, Cell.resetState, COL_RED, COL_BLUE, COL_EMPTY]
  · simp [Cell.resetState]

/-- C1 at the cell with state `empty` and counters (3, 7). -/
theorem C1_setState_evidence_invariant_witness :
    (Cell.setState ⟨[], "empty", 3, 7⟩ COL_RED).2.area_red
        ≥ (Cell.setState ⟨[], "empty", 3, 7⟩ COL_RED).2.area_blue ∧
    (Cell.setState ⟨[], "empty", 3, 7⟩ COL_BLUE).2.area_blue
        ≥ (Cell.setState ⟨[], "empty", 3, 7⟩ COL_BLUE).2.area_red ∧
    ((Cell.setState ⟨[], "empty", 3, 7⟩ COL_EMPTY).2.area_red = 0 ∧
      (Cell.setState ⟨[], "empty", 3, 7⟩ COL_EMPTY).2.area_blue = 0 ∧
      (Cell.setState ⟨[], "empty", 3, 7⟩ COL_EMPTY).2.state = COL_EMPTY) ∧
    ((Cell.resetState ⟨[], "empty", 3, 7⟩).2.area_red = 0 ∧
      (Cell.resetState ⟨[], "empty", 3, 7⟩).2.area_blue = 0 ∧
      (Cell.resetState ⟨[], "empty", 3, 7⟩).2.state = COL_EMPTY) :=
  C1_setState_evidence_invariant ⟨[], "empty", 3, 7⟩ (by decide) (by decide) (by decide) (by decide)

/-- The outcome of `computeState()` in terms of the two counters alone. -/
theorem computeState_cases (c : Cell) :
    (c.area_red = 0 ∧ c.area_blue = 0 →
      Cell.computeState c = (false, { c with state := COL_EMPTY, area_red := 0, area_blue := 0 })) ∧
    ((c.area_red ≠ 0 ∨ c.area_blue ≠ 0) → c.area_red > c.area_blue →
      Cell.computeState c = (true, { c with state := COL_RED })) ∧
    ((c.area_red ≠ 0 ∨ c.area_blue ≠ 0) → ¬ c.area_red > c.area_blue →
      Cell.computeState c = (true, { c with state := COL_BLUE })) := by
  refine ⟨?_, ?_, ?_⟩
  · rintro ⟨h1, h2⟩
    simp [Cell.computeState, Cell.setState, Cell.resetState, COL_RED, COL_BLUE, COL_EMPTY, h1, h2]
  · intro h0 h
    have h2 : ¬ c.area_red < c.area_blue := by omega
    simp [Cell.computeState, Cell.setState, Cell.getRedArea, Cell.getBlueArea, COL_RED, COL_BLUE,
      COL_EMPTY, h0, h, h2]
  · intro h0 h
    have h2 : ¬ c.area_blue < c.area_red := by omega
    simp [Cell.computeState, Cell.setState, Cell.getRedArea, Cell.getBlueArea, COL_RED, COL_BLUE,
      COL_EMPTY, h0, h, h2]

/-- C2: `computeState()` depends on the counters only (two cells with the same
counters get the same result and state, whatever their prior state); with both
counters 0 it sets `empty` and returns false; with non-negative unequal
counters it sets the colour of the strictly larger counter and returns true. -/
theorem C2_computeState_from_evidence (c d : Cell) :
    (c.area_red = d.area_red → c.area_blue = d.area_blue →
      (Cell.computeState c).1 = (Cell.computeState d).1 ∧
      (Cell.computeState c).2.state = (Cell.computeState d).2.state) ∧
    (c.area_red = 0 → c.area_blue = 0 →
      (Cell.computeState c).1 = false ∧ (Cell.computeState c).2.state = COL_EMPTY) ∧
    (0 ≤ c.area_red → 0 ≤ c.area_blue → c.area_red > c.area_blue →
      (Cell.computeState c).1 = true ∧ (Cell.computeState c).2.state = COL_RED) ∧
    (0 ≤ c.area_red → 0 ≤ c.area_blue → c.area_blue > c.area_red →
      (Cell.computeState c).1 = true ∧ (Cell.computeState c).2.state = COL_BLUE) := by
  obtain ⟨cz, cr, cb⟩ := computeState_cases c
  obtain ⟨dz, dr, db⟩ := computeState_cases d
  refine ⟨?_, ?_, ?_, ?_⟩
  · intro hr hb
    by_cases hz : c.area_red = 0 ∧ c.area_blue = 0
    · rw [cz hz, dz ⟨hr ▸ hz.1, hb ▸ hz.2⟩]
      exact ⟨rfl, rfl⟩
    · have hnz : c.area_red ≠ 0 ∨ c.area_blue ≠ 0 := by omega
      have hnz2 : d.area_red ≠ 0 ∨ d.area_blue ≠ 0 := by omega
      by_cases hg : c.area_red > c.area_blue
      · rw [cr hnz hg, dr hnz2 (by omega)]
        exact ⟨rfl, rfl⟩
      · rw [cb hnz hg, db hnz2 (by omega)]
        exact ⟨rfl, rfl⟩
  · intro hr hb
    rw [cz ⟨hr, hb⟩]
    exact ⟨rfl, rfl⟩
  · intro _ _ hg
    rw [cr (by omega) hg]
    exact ⟨rfl, rfl⟩
  · intro _ _ hg
    rw [cb (by omega) (by omega)]
    exact ⟨rfl, rfl⟩

/-- C2 at cells with counters (5, 2) and prior states `blue` and `red`, and at
cells with counters (0, 0) and (2, 5). -/
theorem C2_computeState_from_evidence_witness :
    ((Cell.computeState ⟨[], "blue", 5, 2⟩).1 = (Cell.computeState ⟨[(1, 1)], "red", 5, 2⟩).1 ∧
      (Cell.computeState ⟨[], "blue", 5, 2⟩).2.state
        = (Cell.computeState ⟨[(1, 1)], "red", 5, 2⟩).2.state) ∧
    ((Cell.computeState ⟨[], "red", 0, 0⟩).1 = false ∧
      (Cell.computeState ⟨[], "red", 0, 0⟩).2.state = COL_EMPTY) ∧
    ((Cell.computeState ⟨[], "blue", 5, 2⟩).1 = true ∧
      (Cell.computeState ⟨[], "blue", 5, 2⟩).2.state = COL_RED) ∧
    ((Cell.computeState ⟨[], "red", 2, 5⟩).1 = true ∧
      (Cell.computeState ⟨[], "red", 2, 5⟩).2.state = COL_BLUE) :=
  ⟨(C2_computeState_from_evidence ⟨[], "blue", 5, 2⟩ ⟨[(1, 1)], "red", 5, 2⟩).1 rfl rfl,
   (C2_computeState_from_evidence ⟨[], "red", 0, 0⟩ ⟨[], "red", 0, 0⟩).2.1 rfl rfl,
   (C2_computeState_from_evidence ⟨[], "blue", 5, 2⟩ ⟨[], "blue", 5, 2⟩).2.2.1
     (by decide) (by decide) (by decide),
   (C2_computeState_from_evidence ⟨[], "red", 2, 5⟩ ⟨[], "red", 2, 5⟩).2.2.2
     (by decide) (by decide) (by decide)⟩

/-- C3, refuted as stated: the cell with counters (1, 1) is a tie with positive
counters, and `computeState()` sets its state to `blue`, not to `red`. -/
theorem C3_tie_not_red_counterexample :
    (⟨[], "empty", 1, 1⟩ : Cell).area_red = (⟨[], "empty", 1, 1⟩ : Cell).area_blue ∧
    (⟨[], "empty", 1, 1⟩ : Cell).area_blue > 0 ∧
    (Cell.computeState ⟨[], "empty", 1, 1⟩).2.state = COL_BLUE ∧
    (Cell.computeState ⟨[], "empty", 1, 1⟩).2.state ≠ COL_RED := by
  decide

/-- C3, amended: ties in `computeState()` are resolved in favour of blue: for
every cell with `area_red == area_blue > 0`, `computeState()` sets the state to
`blue` and returns true. -/
theorem C3_tie_resolved_to_blue (c : Cell) (htie : c.area_red = c.area_blue)
    (hpos : c.area_blue > 0) :
    (Cell.computeState c).2.state = COL_BLUE ∧ (Cell.computeState c).1 = true := by
  rw [(computeState_cases c).2.2 (by omega) (by omega)]
  exact ⟨rfl, rfl⟩

/-- C3 amended, at the cell with prior state `red` and counters (4, 4). -/
theorem C3_tie_resolved_to_blue_witness :
    (Cell.computeState ⟨[], "red", 4, 4⟩).2.state = COL_BLUE ∧
    (Cell.computeState ⟨[], "red", 4, 4⟩).1 = true :=
  C3_tie_resolved_to_blue ⟨[], "red", 4, 4⟩ rfl (by decide)

/-! ## Board: conversions to and from the external message -/

/-- The import loop appends, to the states already on the board, the valid
tokens of the message in their order. -/
theorem fromMsg_foldl_states (l : List MsgCell) (acc : Board) :
    (l.foldl Board.fromMsgStep acc).states
      = acc.states ++ (l.map MsgCell.state).filter (fun t => decide (validToken t)) := by
  induction l generalizing acc with
  | nil => simp
  | cons m ms ih =>
    rw [List.foldl_cons, ih]
    have hbr : COL_BLUE ≠ COL_RED := by decide
    have her : COL_EMPTY ≠ COL_RED := by decide
    have heb : COL_EMPTY ≠ COL_BLUE := by decide
    by_cases h1 : m.state = COL_RED
    · simp [Board.fromMsgStep, Board.addCell, Board.states, Cell.getState, Cell.mk3, validToken, h1]
    · by_cases h2 : m.state = COL_BLUE
      · simp [Board.fromMsgStep, Board.addCell, Board.states, Cell.getState, Cell.mk3, validToken,
          h2, hbr]
      · by_cases h3 : m.state = COL_EMPTY
        · simp [Board.fromMsgStep, Board.addCell, Board.states, Cell.getState, Cell.mk3,
            validToken, h3, her, heb]
        · simp [Board.fromMsgStep, validToken, h1, h2, h3]

/-- The states of an imported board are the valid tokens of the message. -/
theorem fromMsgBoard_states (b : Board) (msg : MsgBoard) :
    (Board.fromMsgBoard b msg).states = msg.tokens.filter (fun t => decide (validToken t)) := by
  unfold Board.fromMsgBoard
  rw [fromMsg_foldl_states]
  simp [Board.resetBoard, Board.states, MsgBoard.tokens]

/-- An export always has `slots` entries. -/
theorem toMsgBoard_length (slots : Nat) (b : Board) :
    (Board.toMsgBoard slots b).1.cells.length = slots := by
  unfold Board.toMsgBoard
  simp only []
  split_ifs <;> simp [List.enum_eq_zip_range]

/-- When the cell count differs from the slot count, every exported token is `empty`. -/
theorem toMsgBoard_mismatch (slots : Nat) (b : Board) (h : Board.getNumCells b ≠ slots) :
    (Board.toMsgBoard slots b).1.tokens = List.replicate slots COL_EMPTY := by
  simp [Board.toMsgBoard, MsgBoard.tokens, h]

/-- When the cell count equals the slot count, the exported tokens are the
states of the cells. -/
theorem toMsgBoard_match (slots : Nat) (b : Board) (h : Board.getNumCells b = slots) :
    (Board.toMsgBoard slots b).1.tokens = b.states := by
  have hlen : (Board.toMsgBoard slots b).1.tokens.length = b.states.length := by
    simp [MsgBoard.tokens, toMsgBoard_length, Board.states, ← h, Board.getNumCells]
  apply List.ext_getElem hlen
  intro n h1 h2
  have hn : n < b.cells.length := by simpa [Board.states] using h2
  by_cases hz : Board.getNumCells b = 0
  · simp [Board.getNumCells] at hz
    simp [hz] at hn
  · have hs : ¬ (b.cells.length = 0) := hz
    have hs2 : b.cells.length = slots := h
    subst hs2
    simp [Board.toMsgBoard, MsgBoard.tokens, Board.getNumCells, hs, Board.states,
      Board.getCellState, Board.cellAt, List.getD_eq_getElem _ _ hn, hn]

/-- The number of cells of a board is the number of its states. -/
theorem states_length (b : Board) : b.states.length = Board.getNumCells b := by
  simp [Board.states, Board.getNumCells]

/-- C4: for a message with exactly `slots` tokens, all of them valid, and any
prior board, `fromMsgBoard(msg)` followed by `toMsgBoard()` returns a message
with the token sequence of `msg`. -/
theorem C4_import_export_round_trip (slots : Nat) (b : Board) (msg : MsgBoard)
    (hlen : msg.cells.length = slots) (hval : ∀ t ∈ msg.tokens, validToken t) :
    (Board.toMsgBoard slots (Board.fromMsgBoard b msg)).1.tokens = msg.tokens := by
  have hst : (Board.fromMsgBoard b msg).states = msg.tokens := by
    rw [fromMsgBoard_states, List.filter_eq_self]
    intro t ht
    simpa using hval t ht
  have hnum : Board.getNumCells (Board.fromMsgBoard b msg) = slots := by
    rw [← states_length, hst, ← hlen]
    simp [MsgBoard.tokens]
  rw [toMsgBoard_match slots _ hnum, hst]

/-- C4 at a three-slot message `red, empty, blue` imported into a board that
held one blue cell. -/
theorem C4_import_export_round_trip_witness :
    (Board.toMsgBoard 3 (Board.fromMsgBoard ⟨[⟨[(0, 0)], "blue", 0, 9⟩]⟩
        ⟨[⟨"red"⟩, ⟨"empty"⟩, ⟨"blue"⟩]⟩)).1.tokens
      = (⟨[⟨"red"⟩, ⟨"empty"⟩, ⟨"blue"⟩]⟩ : MsgBoard).tokens :=
  C4_import_export_round_trip 3 ⟨[⟨[(0, 0)], "blue", 0, 9⟩]⟩ ⟨[⟨"red"⟩, ⟨"empty"⟩, ⟨"blue"⟩]⟩
    rfl (by decide)

/-- C5: `toMsgBoard()` returns exactly `slots` entries; when the cell count
differs from `slots` every entry is `empty`; when it equals `slots` entry `i`
is the state of cell `i`; the board is returned as it was. -/
theorem C5_export_slots (slots : Nat) (b : Board) :
    (Board.toMsgBoard slots b).1.cells.length = slots ∧
    (Board.getNumCells b ≠ slots →
      ∀ m ∈ (Board.toMsgBoard slots b).1.cells, m.state = COL_EMPTY) ∧
    (Board.getNumCells b = slots →
      (Board.toMsgBoard slots b).1.tokens = b.states ∧
      ∀ i, i < slots →
        (Board.toMsgBoard slots b).1.tokens[i]? = some (Board.getCellState b i)) ∧
    (Board.toMsgBoard slots b).2 = b := by
  refine ⟨toMsgBoard_length slots b, ?_, ?_, ?_⟩
  · intro h m hm
    have ht : m.state ∈ (Board.toMsgBoard slots b).1.tokens := List.mem_map_of_mem _ hm
    rw [toMsgBoard_mismatch slots b h] at ht
    exact (List.mem_replicate.mp ht).2
  · intro h
    refine ⟨toMsgBoard_match slots b h, ?_⟩
    intro i hi
    have hn : i < b.cells.length := by
      rw [← h] at hi
      exact hi
    rw [toMsgBoard_match slots b h]
    simp [Board.states, Board.getCellState, Board.cellAt, List.getD_eq_getElem _ _ hn,
      List.getElem?_eq_getElem hn]
  · unfold Board.toMsgBoard
    simp only []
    split_ifs <;> rfl

/-- C5 at three slots: a two-cell board exports `empty` everywhere, a
three-cell board exports its states. -/
theorem C5_export_slots_witness :
    (∀ m ∈ (Board.toMsgBoard 3 ⟨[⟨[], "red", 1, 0⟩, ⟨[], "blue", 0, 1⟩]⟩).1.cells,
      m.state = COL_EMPTY) ∧
    (Board.toMsgBoard 3 ⟨[⟨[], "red", 1, 0⟩, ⟨[], "blue", 0, 1⟩, ⟨[], "empty", 0, 0⟩]⟩).1.tokens
      = ["red", "blue", "empty"] :=
  ⟨(C5_export_slots 3 ⟨[⟨[], "red", 1, 0⟩, ⟨[], "blue", 0, 1⟩]⟩).2.1 (by decide),
   ((C5_export_slots 3
      ⟨[⟨[], "red", 1, 0⟩, ⟨[], "blue", 0, 1⟩, ⟨[], "empty", 0, 0⟩]⟩).2.2.1 rfl).1⟩

/-- C6: `fromMsgBoard(msg)` discards the prior cells and skips invalid tokens:
the resulting state sequence is the subsequence of valid tokens of `msg`, in
order, and the cell count is the number of valid tokens. -/
theorem C6_import_skips_invalid (b : Board) (msg : MsgBoard) :
    (Board.fromMsgBoard b msg).states = msg.tokens.filter (fun t => decide (validToken t)) ∧
    Board.getNumCells (Board.fromMsgBoard b msg)
      = msg.tokens.countP (fun t => decide (validToken t)) := by
  refine ⟨fromMsgBoard_states b msg, ?_⟩
  rw [← states_length, fromMsgBoard_states, List.countP_eq_length_filter]

/-! ## Board: equality and the aggregate predicates -/

/-- On two lists of the same length the comparison loop succeeds exactly when
the state sequences agree. -/
theorem eqLoop_iff (xs ys : List Cell) (h : xs.length = ys.length) :
    Board.eqLoop xs ys = true ↔ xs.map Cell.getState = ys.map Cell.getState := by
  induction xs generalizing ys with
  | nil =>
    cases ys with
    | nil => simp [Board.eqLoop]
    | cons d ds => simp at h
  | cons c cs ih =>
    cases ys with
    | nil => simp at h
    | cons d ds =>
      have hl : cs.length = ds.length := by simpa using h
      by_cases hcd : c.state = d.state
      · simp [Board.eqLoop, Cell.ne, Cell.eq, Cell.getState, hcd, ih ds hl]
      · simp [Board.eqLoop, Cell.ne, Cell.eq, Cell.getState, hcd]

/-- Board equality is equality of the state sequences. -/
theorem eq_iff_states (a b : Board) : Board.eq a b = true ↔ a.states = b.states := by
  unfold Board.eq
  by_cases h : a.cells.length = b.cells.length
  · simp [h, eqLoop_iff _ _ h, Board.states]
  · simp only [ne_eq, h, not_false_eq_true, if_true]
    constructor
    · intro hf
      cases hf
    · intro hs
      exact absurd (by simpa [Board.states] using congrArg List.length hs) h

/-- C7: `operator==` on boards is true exactly when the boards have the same
number of cells and the same state string at every index, whatever the
polygons and counters; `operator!=` is its negation; a board with states
`[red, empty, blue]` equals any other such board and differs from one with
states `[red, empty, empty]`. -/
theorem C7_board_equality_by_states (a b : Board) (c1 c2 c3 d1 d2 d3 : Cell) :
    (Board.eq a b = true ↔
      Board.getNumCells a = Board.getNumCells b ∧
      ∀ i, i < Board.getNumCells a → Board.getCellState a i = Board.getCellState b i) ∧
    Board.ne a b = !(Board.eq a b) ∧
    Board.eq
      ⟨[{ c1 with state := COL_RED }, { c2 with state := COL_EMPTY }, { c3 with state := COL_BLUE }]⟩
      ⟨[{ d1 with state := COL_RED }, { d2 with state := COL_EMPTY }, { d3 with state := COL_BLUE }]⟩
      = true ∧
    Board.ne
      ⟨[{ c1 with state := COL_RED }, { c2 with state := COL_EMPTY }, { c3 with state := COL_BLUE }]⟩
      ⟨[{ d1 with state := COL_RED }, { d2 with state := COL_EMPTY }, { d3 with state := COL_EMPTY }]⟩
      = true := by
  refine ⟨?_, rfl, ?_, ?_⟩
  · rw [eq_iff_states]
    constructor
    · intro hs
      have hl : a.cells.length = b.cells.length := by
        simpa [Board.states] using congrArg List.length hs
      refine ⟨hl, ?_⟩
      intro i hi
      have hi2 : i < b.cells.length := hl ▸ hi
      have hget := congrArg (fun l => l[i]?) hs
      simpa [Board.states, Board.getCellState, Board.cellAt, List.getD_eq_getElem _ _ hi,
        List.getD_eq_getElem _ _ hi2, List.getElem?_eq_getElem hi, List.getElem?_eq_getElem hi2]
        using hget
    · rintro ⟨hl, hall⟩
      have hl2 : a.cells.length = b.cells.length := hl
      apply List.ext_getElem (by simpa [Board.states] using hl2)
      intro n h1 h2
      have hn : n < a.cells.length := by simpa [Board.states] using h1
      have hn2 : n < b.cells.length := by simpa [Board.states] using h2
      have := hall n hn
      simpa [Board.states, Board.getCellState, Board.cellAt, List.getD_eq_getElem?_getD,
        List.getElem?_eq_getElem hn, List.getElem?_eq_getElem hn2] using this
  · rw [eq_iff_states]
    rfl
  · have hne : COL_BLUE ≠ COL_EMPTY := by decide
    simp [Board.ne, Board.eq, Board.eqLoop, Cell.ne, Cell.eq, hne]

/-- C7 at two boards with states `[red, empty]` that differ in polygons and
counters: they compare equal. -/
theorem C7_board_equality_by_states_witness :
    Board.eq ⟨[⟨[(0, 0), (4, 0), (4, 4)], "red", 12, 3⟩, ⟨[], "empty", 0, 0⟩]⟩
      ⟨[⟨[], "red", 1, 0⟩, ⟨[(9, 9)], "empty", 0, 0⟩]⟩ = true :=
  (C7_board_equality_by_states
      ⟨[⟨[(0, 0), (4, 0), (4, 4)], "red", 12, 3⟩, ⟨[], "empty", 0, 0⟩]⟩
      ⟨[⟨[], "red", 1, 0⟩, ⟨[(9, 9)], "empty", 0, 0⟩]⟩
      ⟨[], "", 0, 0⟩ ⟨[], "", 0, 0⟩ ⟨[], "", 0, 0⟩ ⟨[], "", 0, 0⟩ ⟨[], "", 0, 0⟩
      ⟨[], "", 0, 0⟩).1.mpr
    ⟨rfl, by decide⟩

/-- The loop of `isFull()` succeeds exactly when no cell is `empty`. -/
theorem isFullLoop_iff (xs : List Cell) :
    Board.isFullLoop xs = true ↔ ∀ c ∈ xs, c.state ≠ COL_EMPTY := by
  induction xs with
  | nil => simp [Board.isFullLoop]
  | cons c cs ih =>
    by_cases h : c.state = COL_EMPTY
    · simp [Board.isFullLoop, Cell.getState, h]
    · simp [Board.isFullLoop, Cell.getState, h, ih]

/-- The loop of `isEmpty()` succeeds exactly when no cell is `red` or `blue`. -/
theorem isEmptyLoop_iff (xs : List Cell) :
    Board.isEmptyLoop xs = true ↔ ∀ c ∈ xs, c.state ≠ COL_RED ∧ c.state ≠ COL_BLUE := by
  induction xs with
  | nil => simp [Board.isEmptyLoop]
  | cons c cs ih =>
    by_cases h : c.state = COL_RED ∨ c.state = COL_BLUE
    · have h2 : ¬ (¬ c.state = COL_RED ∧ ¬ c.state = COL_BLUE) := by tauto
      simp [Board.isEmptyLoop, Cell.getState, h, h2]
    · have h2 : ¬ c.state = COL_RED ∧ ¬ c.state = COL_BLUE := by tauto
      simp [Board.isEmptyLoop, Cell.getState, h, h2, ih]

/-- C8: `isFull()` is true exactly when no cell is `empty`, `isEmpty()` exactly
when no cell is `red` or `blue`; the zero-cell board reports both true; a board
whose cells all carry valid states reports both true only with zero cells. -/
theorem C8_isFull_isEmpty (b : Board) :
    (Board.isFull b = true ↔ ∀ c ∈ b.cells, c.state ≠ COL_EMPTY) ∧
    (Board.isEmpty b = true ↔ ∀ c ∈ b.cells, c.state ≠ COL_RED ∧ c.state ≠ COL_BLUE) ∧
    (Board.isFull ⟨[]⟩ = true ∧ Board.isEmpty ⟨[]⟩ = true) ∧
    ((∀ c ∈ b.cells, validToken c.state) → Board.isFull b = true → Board.isEmpty b = true →
      Board.getNumCells b = 0) := by
  refine ⟨isFullLoop_iff b.cells, isEmptyLoop_iff b.cells, ⟨rfl, rfl⟩, ?_⟩
  intro hval hfull hempty
  have hf := (isFullLoop_iff b.cells).mp hfull
  have he := (isEmptyLoop_iff b.cells).mp hempty
  unfold Board.getNumCells
  cases hb : b.cells with
  | nil => rfl
  | cons c cs =>
    have hc : c ∈ b.cells := by simp [hb]
    rcases hval c hc with h | h | h
    · exact absurd h (he c hc).1
    · exact absurd h (he c hc).2
    · exact absurd h (hf c hc)

/-- C8 at the zero-cell board: all cells are valid, both predicates are true,
and the cell count is 0. -/
theorem C8_isFull_isEmpty_witness : Board.getNumCells ⟨[]⟩ = 0 :=
  (C8_isFull_isEmpty ⟨[]⟩).2.2.2 (by simp) rfl rfl

/-! ## Board: resets and state setting -/

/-- C9: on the zero-cell board `resetCellStates()` and `resetCells()` return
false and change nothing; on a board with at least one cell they return true,
keep the cell count and leave every cell `empty` with counters 0;
`resetCellStates()` keeps every polygon, `resetCells()` empties every polygon. -/
theorem C9_board_resets (b : Board) :
    (Board.getNumCells b = 0 →
      Board.resetCellStates b = (false, b) ∧ Board.resetCells b = (false, b)) ∧
    (0 < Board.getNumCells b →
      ((Board.resetCellStates b).1 = true ∧
        Board.getNumCells (Board.resetCellStates b).2 = Board.getNumCells b ∧
        (∀ c ∈ (Board.resetCellStates b).2.cells,
          c.state = COL_EMPTY ∧ c.area_red = 0 ∧ c.area_blue = 0) ∧
        (Board.resetCellStates b).2.cells.map Cell.contour = b.cells.map Cell.contour) ∧
      ((Board.resetCells b).1 = true ∧
        Board.getNumCells (Board.resetCells b).2 = Board.getNumCells b ∧
        (∀ c ∈ (Board.resetCells b).2.cells,
          c.state = COL_EMPTY ∧ c.area_red = 0 ∧ c.area_blue = 0 ∧ c.contour = []))) := by
  constructor
  · intro h
    simp [Board.resetCellStates, Board.resetCells, h]
  · intro h
    have hz : ¬ Board.getNumCells b = 0 := by omega
    refine ⟨⟨?_, ?_, ?_, ?_⟩, ?_, ?_, ?_⟩
    · simp [Board.resetCellStates, hz]
    · simp only [Board.resetCellStates, hz, if_false]
      simp [Board.getNumCells]
    · intro c hc
      simp only [Board.resetCellStates, hz, if_false, List.mem_map] at hc
      obtain ⟨d, _, rfl⟩ := hc
      simp [Cell.resetState]
    · simp [Board.resetCellStates, hz, Cell.resetState]
    · simp [Board.resetCells, hz]
    · simp only [Board.resetCells, hz, if_false]
      simp [Board.getNumCells]
    · intro c hc
      simp only [Board.resetCells, hz, if_false, List.mem_map] at hc
      obtain ⟨d, _, rfl⟩ := hc
      simp [Cell.resetCell, Cell.resetState]

/-- C9 at the zero-cell board and at a two-cell board. -/
theorem C9_board_resets_witness :
    (Board.resetCellStates ⟨[]⟩ = (false, ⟨[]⟩) ∧ Board.resetCells ⟨[]⟩ = (false, ⟨[]⟩)) ∧
    (Board.resetCellStates ⟨[⟨[(1, 2)], "red", 5, 1⟩, ⟨[(3, 4)], "blue", 0, 2⟩]⟩).2.cells.map
        Cell.contour = [[(1, 2)], [(3, 4)]] ∧
    (Board.resetCells ⟨[⟨[(1, 2)], "red", 5, 1⟩, ⟨[(3, 4)], "blue", 0, 2⟩]⟩).1 = true :=
  ⟨(C9_board_resets ⟨[]⟩).1 rfl,
   ((C9_board_resets ⟨[⟨[(1, 2)], "red", 5, 1⟩, ⟨[(3, 4)], "blue", 0, 2⟩]⟩).2 (by decide)).1.2.2.2,
   ((C9_board_resets ⟨[⟨[(1, 2)], "red", 5, 1⟩, ⟨[(3, 4)], "blue", 0, 2⟩]⟩).2 (by decide)).2.1⟩

/-- C10: `setState(s)` returns true exactly when `s` is one of the three valid
tokens; for any other `s` it returns false and leaves the cell unchanged;
`setCellState(i, s)` at a valid index returns the result of `setState(s)` on
cell `i`, stores that cell at index `i`, keeps the cell count and changes no
other cell. -/
theorem C10_setState_validation (c : Cell) (s : String) (b : Board) (i : Nat) :
    ((Cell.setState c s).1 = true ↔ validToken s) ∧
    (¬ validToken s → Cell.setState c s = (false, c)) ∧
    (i < Board.getNumCells b →
      (Board.setCellState b i s).1 = (Cell.setState (Board.cellAt b i) s).1 ∧
      Board.cellAt (Board.setCellState b i s).2 i = (Cell.setState (Board.cellAt b i) s).2 ∧
      Board.getNumCells (Board.setCellState b i s).2 = Board.getNumCells b ∧
      ∀ j, j ≠ i → (Board.setCellState b i s).2.cells[j]? = b.cells[j]?) := by
  refine ⟨?_, ?_, ?_⟩
  · by_cases h : validToken s
    · have h2 : s = COL_RED ∨ s = COL_BLUE ∨ s = COL_EMPTY := h
      simp only [Cell.setState, h2, if_true, h, iff_true]
      split_ifs <;> rfl
    · have h2 : ¬ (s = COL_RED ∨ s = COL_BLUE ∨ s = COL_EMPTY) := h
      simp [Cell.setState, h2, h]
  · intro h
    have h2 : ¬ (s = COL_RED ∨ s = COL_BLUE ∨ s = COL_EMPTY) := h
    simp [Cell.setState, h2]
  · intro hi
    have hi2 : i < b.cells.length := hi
    refine ⟨rfl, ?_, ?_, ?_⟩
    · simp [Board.setCellState, Board.cellAt, List.getD_eq_getElem?_getD, hi2]
    · simp [Board.setCellState, Board.getNumCells]
    · intro j hj
      simp [Board.setCellState, List.getElem?_set_ne (Ne.symm hj)]

/-- C10 at the token `green` on a two-cell board, index 1: the call reports
false. -/
theorem C10_setState_validation_witness :
    Cell.setState ⟨[(1, 1)], "red", 3, 1⟩ "green" = (false, ⟨[(1, 1)], "red", 3, 1⟩) ∧
    (Board.setCellState ⟨[⟨[], "empty", 0, 0⟩, ⟨[(1, 1)], "red", 3, 1⟩]⟩ 1 "green").1 = false :=
  ⟨(C10_setState_validation ⟨[(1, 1)], "red", 3, 1⟩ "green" ⟨[]⟩ 0).2.1 (by decide),
   ((C10_setState_validation ⟨[], "", 0, 0⟩ "green"
      ⟨[⟨[], "empty", 0, 0⟩, ⟨[(1, 1)], "red", 3, 1⟩]⟩ 1).2.2 (by decide)).1⟩

/-! ## Cell: strictness after a state-set, and the frame of `computeState` -/

/-- C11, refuted as stated: on the cell with counters (2, 2), which are
non-negative and below the largest `int`, `setState(red)` succeeds and leaves
`area_red = area_blue`, not `area_red > area_blue`; `setState(blue)` likewise
leaves `area_blue = area_red`. -/
theorem C11_tie_not_strict_counterexample :
    (0 ≤ (⟨[], "empty", 2, 2⟩ : Cell).area_red ∧ (⟨[], "empty", 2, 2⟩ : Cell).area_red < INT_MAX ∧
      0 ≤ (⟨[], "empty", 2, 2⟩ : Cell).area_blue ∧
      (⟨[], "empty", 2, 2⟩ : Cell).area_blue < INT_MAX) ∧
    (Cell.setState ⟨[], "empty", 2, 2⟩ COL_RED).1 = true ∧
    ¬ ((Cell.setState ⟨[], "empty", 2, 2⟩ COL_RED).2.area_red
        > (Cell.setState ⟨[], "empty", 2, 2⟩ COL_RED).2.area_blue) ∧
    (Cell.setState ⟨[], "empty", 2, 2⟩ COL_BLUE).1 = true ∧
    ¬ ((Cell.setState ⟨[], "empty", 2, 2⟩ COL_BLUE).2.area_blue
        > (Cell.setState ⟨[], "empty", 2, 2⟩ COL_BLUE).2.area_red) := by
  decide

/-- C11, amended: for a cell whose counters are non-negative, below the largest
`int` and different from each other, `setState(red)` succeeds and leaves
`area_red > area_blue` strictly, and `setState(blue)` succeeds and leaves
`area_blue > area_red` strictly. -/
theorem C11_strict_when_counters_differ (c : Cell)
    (hr0 : 0 ≤ c.area_red) (hr1 : c.area_red < INT_MAX)
    (hb0 : 0 ≤ c.area_blue) (hb1 : c.area_blue < INT_MAX)
    (hne : c.area_red ≠ c.area_blue) :
    ((Cell.setState c COL_RED).1 = true ∧
      (Cell.setState c COL_RED).2.area_red > (Cell.setState c COL_RED).2.area_blue) ∧
    ((Cell.setState c COL_BLUE).1 = true ∧
      (Cell.setState c COL_BLUE).2.area_blue > (Cell.setState c COL_BLUE).2.area_red) := by
  have wr := wrapInt_succ_eq c.area_red hr0 hr1
  have wb := wrapInt_succ_eq c.area_blue hb0 hb1
  constructor
  · by_cases h : c.area_red < c.area_blue
    · simp [Cell.setState, Cell.getRedArea, Cell.getBlueArea, Cell.setRedArea, COL_RED, COL_BLUE,
        COL_EMPTY, h, wb]
    · simp [Cell.setState, Cell.getRedArea, Cell.getBlueArea, Cell.setRedArea, Cell.setBlueArea,
        Cell.resetState, COL_RED, COL_BLUE, COL_EMPTY, h]
      omega
  · by_cases h : c.area_blue < c.area_red
    · simp [Cell.setState, Cell.getRedArea, Cell.getBlueArea, Cell.setBlueArea, COL_RED, COL_BLUE,
        COL_EMPTY, h, wr]
    · simp [Cell.setState, Cell.getRedArea, Cell.getBlueArea, Cell.setRedArea, Cell.setBlueArea,
        Cell.resetState, COL_RED, COL_BLUE, COL_EMPTY, h]
      omega

/-- C11 amended, at the cell with counters (3, 7). -/
theorem C11_strict_when_counters_differ_witness :
    ((Cell.setState ⟨[], "empty", 3, 7⟩ COL_RED).1 = true ∧
      (Cell.setState ⟨[], "empty", 3, 7⟩ COL_RED).2.area_red
        > (Cell.setState ⟨[], "empty", 3, 7⟩ COL_RED).2.area_blue) ∧
    ((Cell.setState ⟨[], "empty", 3, 7⟩ COL_BLUE).1 = true ∧
      (Cell.setState ⟨[], "empty", 3, 7⟩ COL_BLUE).2.area_blue
        > (Cell.setState ⟨[], "empty", 3, 7⟩ COL_BLUE).2.area_red) :=
  C11_strict_when_counters_differ ⟨[], "empty", 3, 7⟩ (by decide) (by decide) (by decide)
    (by decide) (by decide)

/-- The cell `computeState()` leaves behind differs from the cell before in
its state string only. -/
theorem computeState_frame (c : Cell) :
    ∃ st, (Cell.computeState c).2 = { c with state := st } := by
  obtain ⟨cz, cr, cb⟩ := computeState_cases c
  by_cases hz : c.area_red = 0 ∧ c.area_blue = 0
  · refine ⟨COL_EMPTY, ?_⟩
    rw [cz hz]
    obtain ⟨h1, h2⟩ := hz
    cases c
    simp_all
  · have hnz : c.area_red ≠ 0 ∨ c.area_blue ≠ 0 := by omega
    by_cases hg : c.area_red > c.area_blue
    · exact ⟨COL_RED, by rw [cr hnz hg]⟩
    · exact ⟨COL_BLUE, by rw [cb hnz hg]⟩

/-! ## Grid ordering -/

/-- The loop values `n, ..., 1` are the numbers from 1 to `n`. -/
theorem mem_countDown (n i : Nat) : i ∈ countDown n ↔ 1 ≤ i ∧ i ≤ n := by
  induction n with
  | zero =>
    simp only [countDown, List.not_mem_nil, false_iff]
    omega
  | succ k ih =>
    simp only [countDown, List.mem_cons, ih]
    omega

/-- A loop from `n` down to 1 has `n` iterations. -/
theorem length_countDown (n : Nat) : (countDown n).length = n := by
  induction n with
  | zero => rfl
  | succ k ih => simp [countDown, ih]

/-- A nested loop with `m` inner iterations per outer iteration. -/
theorem length_flatMap_const {α β : Type} (l : List α) (m : Nat) (f : α → List β)
    (hf : ∀ a, (f a).length = m) : (l.flatMap f).length = l.length * m := by
  induction l with
  | nil => simp
  | cons a as ih =>
    simp only [List.flatMap_cons, List.length_append, List.length_cons, hf, ih]
    ring

/-- The square regime reads `side_len * side_len` indices. -/
theorem length_squareIndices (n : Nat) :
    (squareIndices n).length = Nat.sqrt (n + 1) * Nat.sqrt (n + 1) := by
  unfold squareIndices
  rw [length_flatMap_const _ (Nat.sqrt (n + 1))]
  · rw [length_countDown]
  · intro a
    rw [List.length_map, length_countDown]

/-- Every index the square regime reads lies in `[0, side_len * side_len)`. -/
theorem mem_squareIndices (n : Nat) (x : Int) (hx : x ∈ squareIndices n) :
    0 ≤ x ∧ x < (Nat.sqrt (n + 1) : Int) * (Nat.sqrt (n + 1) : Int) := by
  unfold squareIndices at hx
  rw [List.mem_flatMap] at hx
  obtain ⟨i, hi, hx⟩ := hx
  rw [List.mem_map] at hx
  obtain ⟨j, hj, rfl⟩ := hx
  rw [mem_countDown] at hi hj
  obtain ⟨hi1, hi2⟩ := hi
  obtain ⟨hj1, hj2⟩ := hj
  have h1 : (Nat.sqrt (n + 1) : Int) ≤ (i : Int) * (Nat.sqrt (n + 1) : Int) := by
    have : Nat.sqrt (n + 1) ≤ i * Nat.sqrt (n + 1) := Nat.le_mul_of_pos_left _ hi1
    exact_mod_cast this
  have h2 : (i : Int) * (Nat.sqrt (n + 1) : Int)
      ≤ (Nat.sqrt (n + 1) : Int) * (Nat.sqrt (n + 1) : Int) := by
    have : i * Nat.sqrt (n + 1) ≤ Nat.sqrt (n + 1) * Nat.sqrt (n + 1) :=
      Nat.mul_le_mul_right _ hi2
    exact_mod_cast this
  have h3 : (j : Int) ≤ (Nat.sqrt (n + 1) : Int) := by exact_mod_cast hj2
  have h4 : (1 : Int) ≤ (j : Int) := by exact_mod_cast hj1
  constructor <;> omega
/-- Reads at indices inside the vector all succeed, one contour per index. -/
theorem readAll_in_range (contours : List Contour) (ks : List Int)
    (h : ∀ x ∈ ks, 0 ≤ x ∧ x < (contours.length : Int)) :
    ∃ l, readAll contours ks = some l ∧ l.length = ks.length := by
  induction ks with
  | nil => exact ⟨[], rfl, rfl⟩
  | cons k ks ih =>
    obtain ⟨l, hl, hlen⟩ := ih (fun x hx => h x (List.mem_cons_of_mem _ hx))
    obtain ⟨h0, h1⟩ := h k (List.mem_cons_self _ _)
    have hk : k.toNat < contours.length := by omega
    refine ⟨contours[k.toNat] :: l, ?_, by simp [hlen]⟩
    simp [readAll, h0, hl, List.getElem?_eq_getElem hk]

/-- The side length for a perfect square number of contours. -/
theorem sqrt_succ_square (k : Nat) (hk : 1 ≤ k) : Nat.sqrt (k * k + 1) = k := by
  symm
  rw [Nat.eq_sqrt]
  constructor
  · omega
  · nlinarith

/-- The orientation test has a result on every non-empty list of centroids. -/
theorem isWide_defined (cell_centroids : List Point) (h : cell_centroids ≠ []) :
    ∃ w, isWide cell_centroids = some w := by
  cases cell_centroids with
  | nil => exact absurd rfl h
  | cons p ps =>
    unfold isWide
    have hl : ∃ q, (p :: ps).getLast? = some q := by
      rw [List.getLast?_eq_getLast _ (by simp)]
      exact ⟨_, rfl⟩
    obtain ⟨q, hq⟩ := hl
    rw [hq]
    exact ⟨_, rfl⟩

/-- In the wide regime the emitted sequence is the reversed candidate list. -/
theorem gridOrder_wide (contours : List Contour) (cell_centroids : List Point)
    (h : isWide cell_centroids = some true) :
    gridOrder contours cell_centroids = some contours.reverse := by
  simp [gridOrder, h]

/-- In the square regime, when `side_len * side_len` does not exceed the number
of candidates, `side_len * side_len` polygons are emitted. -/
theorem gridOrder_square (contours : List Contour) (cell_centroids : List Point)
    (h : isWide cell_centroids = some false)
    (hs : Nat.sqrt (contours.length + 1) * Nat.sqrt (contours.length + 1) ≤ contours.length) :
    ∃ l, gridOrder contours cell_centroids = some l ∧
      l.length = Nat.sqrt (contours.length + 1) * Nat.sqrt (contours.length + 1) := by
  have hr := readAll_in_range contours (squareIndices contours.length) (by
    intro x hx
    obtain ⟨h0, h1⟩ := mem_squareIndices _ x hx
    have : (Nat.sqrt (contours.length + 1) : Int) * (Nat.sqrt (contours.length + 1) : Int)
        ≤ (contours.length : Int) := by exact_mod_cast hs
    exact ⟨h0, by omega⟩)
  obtain ⟨l, hl, hlen⟩ := hr
  refine ⟨l, ?_, ?_⟩
  · simp [gridOrder, h, hl]
  · rw [hlen, length_squareIndices]

/-- For nine candidates the side length is 3 and the square regime reads the
raw indices 6, 7, 8, 3, 4, 5, 0, 1, 2. -/
theorem squareIndices_nine : squareIndices 9 = [6, 7, 8, 3, 4, 5, 0, 1, 2] := by
  have h : Nat.sqrt 10 = 3 := by
    symm
    rw [Nat.eq_sqrt]
    decide
  simp only [squareIndices, h]
  decide

/-- C12, refuted as stated: nine squares centred on the grid, in raster scan
order (their centroids are `rasterCentroids`), are emitted bottom row first:
output index 0 is the square centred at (0, 200), not the one centred at
(0, 0), and the emitted sequence is not the row-major sequence. -/
theorem C12_raster_scenario_counterexample :
    rasterSquares.map (findCentroid polygonMoments) = rasterCentroids.map some ∧
    gridOrder rasterSquares rasterCentroids
      = some [squareAt 0 200, squareAt 100 200, squareAt 200 200,
              squareAt 0 100, squareAt 100 100, squareAt 200 100,
              squareAt 0 0, squareAt 100 0, squareAt 200 0] ∧
    squareAt 0 200 ≠ squareAt 0 0 ∧
    gridOrder rasterSquares rasterCentroids ≠ some rasterSquares := by
  have hw : isWide rasterCentroids = some false := by decide
  have hl : rasterSquares.length = 9 := by decide
  have hg : gridOrder rasterSquares rasterCentroids
      = some [squareAt 0 200, squareAt 100 200, squareAt 200 200,
              squareAt 0 100, squareAt 100 100, squareAt 200 100,
              squareAt 0 0, squareAt 100 0, squareAt 200 0] := by
    simp only [gridOrder, hw, hl, squareIndices_nine]
    decide
  refine ⟨?_, hg, by decide, ?_⟩
  · norm_num [rasterSquares, rasterCentroids, findCentroid, polygonMoments, greenSums, squareAt,
      divide, doubleToInt, Option.bind, INT_MIN, INT_MAX]
  · rw [hg]
    decide

/-- C12, amended: nine candidates `c0 .. c8` whose centroids form the grid and
arrive in raster scan order (raw index `3 * r + c` has centroid
`(100 * c, 100 * r)`) are emitted in the order `c6 c7 c8 c3 c4 c5 c0 c1 c2`:
output index `k` is the candidate with centroid
`(100 * (k mod 3), 100 * (2 - k div 3))`, rows from bottom to top, each row
from left to right. -/
theorem C12_raster_scenario_rows_bottom_up (c0 c1 c2 c3 c4 c5 c6 c7 c8 : Contour) :
    gridOrder [c0, c1, c2, c3, c4, c5, c6, c7, c8] rasterCentroids
      = some [c6, c7, c8, c3, c4, c5, c0, c1, c2] ∧
    ∀ k, k < 9 →
      rasterCentroids[[6, 7, 8, 3, 4, 5, 0, 1, 2].getD k 0]?
        = some ((100 * (k % 3) : Int), (100 * (2 - k / 3) : Int)) := by
  have hw : isWide rasterCentroids = some false := by decide
  constructor
  · simp only [gridOrder, hw, List.length_cons, List.length_nil]
    rw [squareIndices_nine]
    simp [readAll]
  · intro k hk
    interval_cases k <;> decide

/-- C13, refuted as stated: two candidates whose centroids (0, 0) and (100, 0)
put the step in the square regime give `side_len = 1`, and one polygon is
emitted, not two. -/
theorem C13_two_candidates_counterexample :
    isWide [(0, 0), (100, 0)] = some false ∧
    gridOrder [squareAt 0 0, squareAt 100 0] [(0, 0), (100, 0)] = some [squareAt 0 0] ∧
    [squareAt 0 0].length ≠ [squareAt 0 0, squareAt 100 0].length := by
  have hw : isWide [(0, 0), (100, 0)] = some false := by decide
  have hs : Nat.sqrt 3 = 1 := by
    symm
    rw [Nat.eq_sqrt]
    decide
  refine ⟨hw, ?_, by decide⟩
  simp only [gridOrder, hw, List.length_cons, List.length_nil]
  simp [squareIndices, hs, countDown, readAll]

/-- C13, amended: for a non-empty candidate list with one centroid per
candidate the orientation test has a result; in the wide regime the emitted
sequence has the length of the candidate list; in the square regime, when
`side_len * side_len` does not exceed the candidate count, it has length
`side_len * side_len`, which is the candidate count whenever that count is a
perfect square. -/
theorem C13_emitted_length (contours : List Contour) (cell_centroids : List Point)
    (hne : contours ≠ []) (hlen : cell_centroids.length = contours.length) :
    (∃ w, isWide cell_centroids = some w) ∧
    (isWide cell_centroids = some true →
      ∃ l, gridOrder contours cell_centroids = some l ∧ l.length = contours.length) ∧
    (isWide cell_centroids = some false →
      (Nat.sqrt (contours.length + 1) * Nat.sqrt (contours.length + 1) ≤ contours.length →
        ∃ l, gridOrder contours cell_centroids = some l ∧
          l.length = Nat.sqrt (contours.length + 1) * Nat.sqrt (contours.length + 1)) ∧
      (∀ k, contours.length = k * k →
        ∃ l, gridOrder contours cell_centroids = some l ∧ l.length = contours.length)) := by
  have hpos : 0 < contours.length := List.length_pos.mpr hne
  refine ⟨?_, ?_, ?_⟩
  · apply isWide_defined
    intro h
    rw [h] at hlen
    simp at hlen
    omega
  · intro hw
    exact ⟨contours.reverse, gridOrder_wide contours cell_centroids hw, by simp⟩
  · intro hw
    refine ⟨gridOrder_square contours cell_centroids hw, ?_⟩
    intro k hk
    have hk1 : 1 ≤ k := by
      rcases Nat.eq_zero_or_pos k with h0 | h0
      · rw [h0] at hk
        omega
      · exact h0
    have hs : Nat.sqrt (contours.length + 1) = k := by
      rw [hk]
      exact sqrt_succ_square k hk1
    obtain ⟨l, hl, hll⟩ := gridOrder_square contours cell_centroids hw (by rw [hs, hk])
    exact ⟨l, hl, by rw [hll, hs, hk]⟩

/-- C13 amended, at four candidates in the square regime: four polygons are
emitted. -/
theorem C13_emitted_length_witness :
    ∃ l, gridOrder [squareAt 0 0, squareAt 100 0, squareAt 0 100, squareAt 100 100]
        [(0, 0), (100, 0), (0, 100), (100, 100)] = some l ∧
      l.length = [squareAt 0 0, squareAt 100 0, squareAt 0 100, squareAt 100 100].length :=
  ((C13_emitted_length [squareAt 0 0, squareAt 100 0, squareAt 0 100, squareAt 100 100]
      [(0, 0), (100, 0), (0, 100), (100, 100)] (by decide) rfl).2.2 (by decide)).2 2 rfl

/-! ## Largest and next-largest contour -/

/-- One iteration of the loop of `getIthIndex` keeps the invariant. -/
theorem IthInv_step (f : Nat → ℚ) (k : Nat) (s : IthState) (h : IthInv f k s)
    (hk : 0 ≤ f k) : IthInv f (k + 1) (getIthStep s k (f k)) := by
  obtain ⟨hA, hL0, hB, hB0, hN0, hC, hD, hC0, hE⟩ := h
  unfold getIthStep
  by_cases h1 : f k > s.largest_area
  · rw [if_pos h1]
    refine ⟨?_, ?_, ?_, ?_, hL0, ?_, ?_, ?_, ?_⟩
    · intro j hj
      rcases Nat.lt_succ_iff_lt_or_eq.mp hj with hlt | heq
      · exact le_trans (hA j hlt) (le_of_lt h1)
      · rw [heq]
    · exact le_trans hL0 (le_of_lt h1)
    · intro _
      exact ⟨Nat.lt_succ_self k, rfl⟩
    · intro h0
      exact absurd h0 (ne_of_gt (lt_of_le_of_lt hL0 h1))
    · intro hp
      obtain ⟨hb1, hb2⟩ := hB hp
      exact ⟨Nat.lt_succ_of_lt hb1, hb2, h1⟩
    · intro j hj hlt
      rcases Nat.lt_succ_iff_lt_or_eq.mp hj with hlt2 | heq
      · exact hA j hlt2
      · rw [heq] at hlt
        exact absurd hlt (lt_irrefl _)
    · intro h0
      exact hB0 h0
    · intro j hj
      exact lt_of_le_of_lt (hA j hj) h1
  · rw [if_neg h1]
    have hle : f k ≤ s.largest_area := not_lt.mp h1
    by_cases h2 : s.next_largest_area < f k ∧ f k < s.largest_area
    · rw [if_pos h2]
      refine ⟨?_, hL0, ?_, hB0, ?_, ?_, ?_, ?_, hE⟩
      · intro j hj
        rcases Nat.lt_succ_iff_lt_or_eq.mp hj with hlt | heq
        · exact hA j hlt
        · rw [heq]
          exact hle
      · intro hp
        obtain ⟨hb1, hb2⟩ := hB hp
        exact ⟨Nat.lt_succ_of_lt hb1, hb2⟩
      · exact hk
      · intro _
        exact ⟨Nat.lt_succ_self k, rfl, h2.2⟩
      · intro j hj hlt
        rcases Nat.lt_succ_iff_lt_or_eq.mp hj with hlt2 | heq
        · exact le_trans (hD j hlt2 hlt) (le_of_lt h2.1)
        · rw [heq]
      · intro h0
        exact absurd h0 (ne_of_gt (lt_of_le_of_lt hN0 h2.1))
    · rw [if_neg h2]
      refine ⟨?_, hL0, ?_, hB0, hN0, ?_, ?_, hC0, hE⟩
      · intro j hj
        rcases Nat.lt_succ_iff_lt_or_eq.mp hj with hlt | heq
        · exact hA j hlt
        · rw [heq]
          exact hle
      · intro hp
        obtain ⟨hb1, hb2⟩ := hB hp
        exact ⟨Nat.lt_succ_of_lt hb1, hb2⟩
      · intro hp
        obtain ⟨hc1, hc2, hc3⟩ := hC hp
        exact ⟨Nat.lt_succ_of_lt hc1, hc2, hc3⟩
      · intro j hj hlt
        rcases Nat.lt_succ_iff_lt_or_eq.mp hj with hlt2 | heq
        · exact hD j hlt2 hlt
        · rw [heq] at hlt ⊢
          by_contra hcon
          exact h2 ⟨not_le.mp hcon, hlt⟩

/-- The loop of `getIthIndex` keeps the invariant up to the end of the list. -/
theorem IthInv_loop (contourArea : Contour → ℚ) (f : Nat → ℚ) (hf : ∀ j, 0 ≤ f j)
    (rest : List Contour) (k : Nat) (s : IthState)
    (hrest : ∀ m, m < rest.length → f (k + m) = contourArea (rest.getD m []))
    (h : IthInv f k s) :
    IthInv f (k + rest.length) (getIthLoop contourArea rest k s) := by
  induction rest generalizing k s with
  | nil => simpa [getIthLoop] using h
  | cons c cs ih =>
    have h0 : f k = contourArea c := by simpa using hrest 0 (by simp)
    have hstep := IthInv_step f k s h (hf k)
    rw [h0] at hstep
    have := ih (k + 1) (getIthStep s k (contourArea c)) (by
      intro m hm
      have := hrest (m + 1) (by simpa using hm)
      simpa [Nat.add_assoc, Nat.add_comm 1 m] using this) hstep
    simpa [getIthLoop, Nat.add_assoc, Nat.add_comm 1 cs.length] using this

/-- The invariant holds for the final state of `getIthIndex`. -/
theorem IthInv_final (contourArea : Contour → ℚ) (hnn : ∀ c, 0 ≤ contourArea c)
    (contours : List Contour) :
    IthInv (fun j => contourArea (contours.getD j [])) contours.length
      (getIthLoop contourArea contours 0 ⟨0, 0, 0, 0⟩) := by
  have h := IthInv_loop contourArea (fun j => contourArea (contours.getD j []))
    (fun j => hnn _) contours 0 ⟨0, 0, 0, 0⟩ (by
      intro m _
      simp) (by
      refine ⟨?_, le_refl _, ?_, ?_, le_refl _, ?_, ?_, ?_, ?_⟩
      · intro j hj
        exact absurd hj (Nat.not_lt_zero j)
      · intro hp
        exact absurd hp (lt_irrefl _)
      · intro _
        rfl
      · intro hp
        exact absurd hp (lt_irrefl _)
      · intro j hj
        exact absurd hj (Nat.not_lt_zero j)
      · intro _
        rfl
      · intro j hj
        exact absurd hj (Nat.not_lt_zero j))
  simpa using h

/-- At the end of the loop over a non-empty list with non-negative areas,
`largest_area_index` is in range and its area is the maximum. -/
theorem IthInv_largest (f : Nat → ℚ) (n : Nat) (s : IthState) (h : IthInv f n s)
    (hf : ∀ j, 0 ≤ f j) (hn : 1 ≤ n) :
    s.largest_area_index < n ∧ f s.largest_area_index = s.largest_area ∧
    ∀ j, j < n → f j ≤ f s.largest_area_index := by
  obtain ⟨hA, hL0, hB, hB0, _, _, _, _, _⟩ := h
  rcases lt_or_eq_of_le hL0 with hpos | hzero
  · obtain ⟨hb1, hb2⟩ := hB hpos
    exact ⟨hb1, hb2, fun j hj => by rw [hb2]; exact hA j hj⟩
  · have hidx := hB0 hzero.symm
    have h00 : f 0 = 0 := le_antisymm (by rw [hzero]; exact hA 0 (by omega)) (hf 0)
    rw [hidx, h00]
    exact ⟨by omega, hzero, fun j hj => by rw [hzero]; exact hA j hj⟩

/-- At the end of the loop over at least two contours with non-negative areas:
when no other contour has the area at `largest_area_index`, and some other
contour has positive area or `largest_area_index` is not 0, then
`next_largest_area_index` is in range, differs from `largest_area_index`, and
its area bounds the area of every other contour. -/
theorem IthInv_next (f : Nat → ℚ) (n : Nat) (s : IthState) (h : IthInv f n s)
    (hf : ∀ j, 0 ≤ f j) (hn : 2 ≤ n)
    (huniq : ∀ j, j < n → j ≠ s.largest_area_index → f j ≠ f s.largest_area_index)
    (hother : (∃ j, j < n ∧ j ≠ s.largest_area_index ∧ 0 < f j) ∨ s.largest_area_index ≠ 0) :
    s.next_largest_area_index < n ∧
    s.next_largest_area_index ≠ s.largest_area_index ∧
    ∀ j, j < n → j ≠ s.largest_area_index → f j ≤ f s.next_largest_area_index := by
  obtain ⟨_, hLeq, hmax⟩ := IthInv_largest f n s h hf (by omega)
  obtain ⟨hA, hL0, hB, hB0, hN0, hC, hD, hC0, hE⟩ := h
  have hlt : ∀ j, j < n → j ≠ s.largest_area_index → f j < s.largest_area := by
    intro j hj hne
    rw [← hLeq]
    exact lt_of_le_of_ne (hmax j hj) (huniq j hj hne)
  by_cases hNpos : 0 < s.next_largest_area
  · obtain ⟨hc1, hc2, hc3⟩ := hC hNpos
    refine ⟨hc1, ?_, ?_⟩
    · intro heq
      rw [heq] at hc2
      rw [hc2] at hLeq
      exact absurd hLeq (ne_of_lt hc3)
    · intro j hj hne
      rw [hc2]
      exact hD j hj (hlt j hj hne)
  · have hN : s.next_largest_area = 0 := le_antisymm (not_lt.mp hNpos) hN0
    have hni := hC0 hN
    have hli0 : s.largest_area_index ≠ 0 := by
      rcases hother with ⟨j, hj, hne, hpos⟩ | h0
      · exact absurd (lt_of_lt_of_le hpos (hD j hj (hlt j hj hne))) hNpos
      · exact h0
    rw [hni]
    refine ⟨by omega, fun h0 => hli0 h0.symm, ?_⟩
    intro j hj hne
    have h1 : f j ≤ 0 := by
      rw [← hN]
      exact hD j hj (hlt j hj hne)
    exact le_trans h1 (hf 0)

/-- Conversely, whenever `next_largest_area_index` is a different index whose
area bounds the area of every other contour, no other contour has the area at
`largest_area_index`, and some other contour has positive area or
`largest_area_index` is not 0. -/
theorem IthInv_next_only_if (f : Nat → ℚ) (n : Nat) (s : IthState) (h : IthInv f n s)
    (hf : ∀ j, 0 ≤ f j) (hn : 2 ≤ n)
    (hne : s.next_largest_area_index ≠ s.largest_area_index)
    (hge : ∀ j, j < n → j ≠ s.largest_area_index → f j ≤ f s.next_largest_area_index) :
    (∀ j, j < n → j ≠ s.largest_area_index → f j ≠ f s.largest_area_index) ∧
    ((∃ j, j < n ∧ j ≠ s.largest_area_index ∧ 0 < f j) ∨ s.largest_area_index ≠ 0) := by
  obtain ⟨_, hLeq, hmax⟩ := IthInv_largest f n s h hf (by omega)
  obtain ⟨hA, hL0, hB, hB0, hN0, hC, hD, hC0, hE⟩ := h
  constructor
  · intro j hj hjne heq
    have h1 : s.largest_area ≤ f s.next_largest_area_index := by
      rw [← hLeq, ← heq]
      exact hge j hj hjne
    by_cases hNpos : 0 < s.next_largest_area
    · obtain ⟨_, hc2, hc3⟩ := hC hNpos
      rw [hc2] at h1
      exact absurd hc3 (not_lt.mpr h1)
    · have hN : s.next_largest_area = 0 := le_antisymm (not_lt.mp hNpos) hN0
      have hni := hC0 hN
      rw [hni] at h1 hne
      have hpos : 0 < s.largest_area_index := Nat.pos_of_ne_zero fun h0 => hne h0.symm
      exact absurd (hE 0 hpos) (not_lt.mpr h1)
  · by_cases h0 : s.largest_area_index = 0
    · left
      have hNpos : 0 < s.next_largest_area := by
        rcases lt_or_eq_of_le hN0 with hp | hz
        · exact hp
        · exact absurd ((hC0 hz.symm).trans h0.symm) hne
      obtain ⟨hc1, hc2, _⟩ := hC hNpos
      exact ⟨s.next_largest_area_index, hc1, hne, by rw [hc2]; exact hNpos⟩
    · exact Or.inr h0

/-- The polygon area of Green's formula is not negative. -/
theorem polygonArea_nonneg (c : Contour) : 0 ≤ polygonArea c := by
  unfold polygonArea polygonMoments
  cases c.getLast? with
  | none => simp
  | some l =>
    simp only []
    split_ifs with h1 h2
    · have : (0 : ℚ) < ((greenSums l c).1 : ℚ) := by exact_mod_cast h1
      simp only []
      linarith
    · have : ((greenSums l c).1 : ℚ) < 0 := by exact_mod_cast h2
      simp only []
      linarith
    · simp

/-- A square of side 80 has area 6400. -/
theorem polygonArea_squareAt (x y : Int) : polygonArea (squareAt x y) = 6400 := by
  have h : (greenSums (x - 40, y + 40) (squareAt x y)).1 = 12800 := by
    simp only [greenSums, squareAt]
    ring
  unfold polygonArea polygonMoments
  have hl : (squareAt x y).getLast? = some (x - 40, y + 40) := rfl
  rw [hl]
  simp only [h]
  norm_num

/-- A one-point polygon has area 0. -/
theorem polygonArea_point : polygonArea [(5, 7)] = 0 := by
  norm_num [polygonArea, polygonMoments, greenSums]

/-- A square of side 10 has area 100. -/
theorem polygonArea_small : polygonArea [(1, 2), (11, 2), (11, 12), (1, 12)] = 100 := by
  norm_num [polygonArea, polygonMoments, greenSums]

/-- The two results of `getIthIndex` are the two index variables at the end of
the loop, which satisfy the loop invariant. -/
theorem getIthIndex_state (contourArea : Contour → ℚ) (hnn : ∀ c, 0 ≤ contourArea c)
    (contours : List Contour) :
    ∃ s, getIthIndex contourArea contours Index.LARGEST = s.largest_area_index ∧
      getIthIndex contourArea contours Index.NEXT_LARGEST = s.next_largest_area_index ∧
      IthInv (fun j => contourArea (contours.getD j [])) contours.length s :=
  ⟨getIthLoop contourArea contours 0 ⟨0, 0, 0, 0⟩, by simp [getIthIndex], by simp [getIthIndex],
    IthInv_final contourArea hnn contours⟩

/-- C14, refuted as stated: for two squares of the same area 6400 (two
contours, non-negative areas) `getIthIndex` returns index 0 both for `LARGEST`
and for `NEXT_LARGEST`, not two different indices; it does the same for a
square of area 6400 followed by a one-point contour of area 0. -/
theorem C14_equal_areas_counterexample :
    2 ≤ [squareAt 0 0, squareAt 100 0].length ∧
    polygonArea (squareAt 0 0) = 6400 ∧ polygonArea (squareAt 100 0) = 6400 ∧
    getIthIndex polygonArea [squareAt 0 0, squareAt 100 0] Index.LARGEST = 0 ∧
    getIthIndex polygonArea [squareAt 0 0, squareAt 100 0] Index.NEXT_LARGEST = 0 ∧
    polygonArea [(5, 7)] = 0 ∧
    getIthIndex polygonArea [squareAt 0 0, [(5, 7)]] Index.LARGEST = 0 ∧
    getIthIndex polygonArea [squareAt 0 0, [(5, 7)]] Index.NEXT_LARGEST = 0 := by
  refine ⟨by decide, polygonArea_squareAt 0 0, polygonArea_squareAt 100 0, ?_, ?_,
    polygonArea_point, ?_, ?_⟩
  · simp [getIthIndex, getIthLoop, getIthStep, polygonArea_squareAt]
  · simp [getIthIndex, getIthLoop, getIthStep, polygonArea_squareAt]
  · simp only [getIthIndex, getIthLoop, getIthStep, polygonArea_squareAt, polygonArea_point]
    norm_num
  · simp only [getIthIndex, getIthLoop, getIthStep, polygonArea_squareAt, polygonArea_point]
    norm_num

/-- C14, amended: for a contour list with at least two contours and
non-negative areas, `getIthIndex(contours, LARGEST)` is the index of a contour
of maximum area; when moreover no other contour has the area of the one
selected as largest, and some other contour has positive area or the one
selected as largest is not the first contour, `getIthIndex(contours,
NEXT_LARGEST)` is a different index, and its area is at least the area of
every contour other than the one selected as largest. -/
theorem C14_getIthIndex_largest_and_next (contourArea : Contour → ℚ)
    (contours : List Contour) (h2 : 2 ≤ contours.length) (hnn : ∀ c, 0 ≤ contourArea c) :
    (getIthIndex contourArea contours Index.LARGEST < contours.length ∧
      ∀ j, j < contours.length →
        contourArea (contours.getD j [])
          ≤ contourArea (contours.getD (getIthIndex contourArea contours Index.LARGEST) [])) ∧
    ((∀ j, j < contours.length → j ≠ getIthIndex contourArea contours Index.LARGEST →
        contourArea (contours.getD j [])
          ≠ contourArea (contours.getD (getIthIndex contourArea contours Index.LARGEST) [])) →
      ((∃ j, j < contours.length ∧ j ≠ getIthIndex contourArea contours Index.LARGEST ∧
          0 < contourArea (contours.getD j [])) ∨
        getIthIndex contourArea contours Index.LARGEST ≠ 0) →
      getIthIndex contourArea contours Index.NEXT_LARGEST < contours.length ∧
      getIthIndex contourArea contours Index.NEXT_LARGEST
        ≠ getIthIndex contourArea contours Index.LARGEST ∧
      ∀ j, j < contours.length → j ≠ getIthIndex contourArea contours Index.LARGEST →
        contourArea (contours.getD j [])
          ≤ contourArea (contours.getD (getIthIndex contourArea contours Index.NEXT_LARGEST) [])) := by
  obtain ⟨s, hli, hni, hinv⟩ := getIthIndex_state contourArea hnn contours
  rw [hli, hni]
  have hL := IthInv_largest _ _ s hinv (fun j => hnn _) (by omega)
  refine ⟨⟨hL.1, hL.2.2⟩, ?_⟩
  intro huniq hother
  exact IthInv_next _ _ s hinv (fun j => hnn _) h2 huniq hother

/-- C14 amended, at a square of area 100 followed by a square of area 6400
(the second is selected as largest, the first as next largest), and at a
one-point contour of area 0 followed by a square of area 6400 (the square is
selected as largest and is not the first contour). -/
theorem C14_getIthIndex_largest_and_next_witness :
    getIthIndex polygonArea [[(1, 2), (11, 2), (11, 12), (1, 12)], squareAt 100 0]
        Index.NEXT_LARGEST
      ≠ getIthIndex polygonArea [[(1, 2), (11, 2), (11, 12), (1, 12)], squareAt 100 0]
        Index.LARGEST ∧
    getIthIndex polygonArea [[(5, 7)], squareAt 100 0] Index.NEXT_LARGEST
      ≠ getIthIndex polygonArea [[(5, 7)], squareAt 100 0] Index.LARGEST :=
  have hli : getIthIndex polygonArea [[(1, 2), (11, 2), (11, 12), (1, 12)], squareAt 100 0]
      Index.LARGEST = 1 := by
    simp only [getIthIndex, getIthLoop, getIthStep, polygonArea_squareAt, polygonArea_small]
    norm_num
  have hli2 : getIthIndex polygonArea [[(5, 7)], squareAt 100 0] Index.LARGEST = 1 := by
    simp only [getIthIndex, getIthLoop, getIthStep, polygonArea_squareAt, polygonArea_point]
    norm_num
  ⟨((C14_getIthIndex_largest_and_next polygonArea
      [[(1, 2), (11, 2), (11, 12), (1, 12)], squareAt 100 0] (by decide) polygonArea_nonneg).2
    (by
      intro j hj hne
      rw [hli] at hne ⊢
      have hj2 : j < 2 := hj
      have hj0 : j = 0 := by omega
      subst hj0
      simp [polygonArea_squareAt, polygonArea_small])
    (Or.inl ⟨0, by decide, by rw [hli]; decide, by
      simp [polygonArea_small]⟩)).2.1,
   ((C14_getIthIndex_largest_and_next polygonArea [[(5, 7)], squareAt 100 0] (by decide)
      polygonArea_nonneg).2
    (by
      intro j hj hne
      rw [hli2] at hne ⊢
      have hj2 : j < 2 := hj
      have hj0 : j = 0 := by omega
      subst hj0
      simp [polygonArea_squareAt, polygonArea_point])
    (Or.inr (by rw [hli2]; decide))).2.1⟩

/-- The two extra conditions of the next-largest selection are needed: whenever
`getIthIndex(contours, NEXT_LARGEST)` is a different index whose area is at
least the area of every contour other than the one selected as largest, no
other contour has the area of the one selected as largest, and some other
contour has positive area or the one selected as largest is not the first. -/
theorem getIthIndex_next_only_if (contourArea : Contour → ℚ)
    (contours : List Contour) (h2 : 2 ≤ contours.length) (hnn : ∀ c, 0 ≤ contourArea c)
    (hne : getIthIndex contourArea contours Index.NEXT_LARGEST
      ≠ getIthIndex contourArea contours Index.LARGEST)
    (hge : ∀ j, j < contours.length → j ≠ getIthIndex contourArea contours Index.LARGEST →
      contourArea (contours.getD j [])
        ≤ contourArea (contours.getD (getIthIndex contourArea contours Index.NEXT_LARGEST) [])) :
    (∀ j, j < contours.length → j ≠ getIthIndex contourArea contours Index.LARGEST →
      contourArea (contours.getD j [])
        ≠ contourArea (contours.getD (getIthIndex contourArea contours Index.LARGEST) [])) ∧
    ((∃ j, j < contours.length ∧ j ≠ getIthIndex contourArea contours Index.LARGEST ∧
        0 < contourArea (contours.getD j [])) ∨
      getIthIndex contourArea contours Index.LARGEST ≠ 0) := by
  obtain ⟨s, hli, hni, hinv⟩ := getIthIndex_state contourArea hnn contours
  rw [hli, hni] at hne hge
  rw [hli]
  exact IthInv_next_only_if _ _ s hinv (fun j => hnn _) h2 hne hge

/-! ## Centroids and areas of degenerate polygons -/

/-- A zero zeroth-order moment leaves `findCentroid` without a value: the
quotient `m10 / m00` is formed whatever `m00` is. -/
theorem findCentroid_zero_m00 (moments : Contour → Moments) (contour : Contour)
    (h : (moments contour).m00 = 0) : findCentroid moments contour = none := by
  simp [findCentroid, divide, h]

/-- On a non-empty polygon with a zero zeroth-order moment `getCentroid` has no
value either: its guard tests the number of points, not the area. -/
theorem getCentroid_zero_m00 (moments : Contour → Moments) (c : Cell)
    (hne : c.contour ≠ []) (h : (moments c.contour).m00 = 0) :
    (Cell.getCentroid moments c).1 = none := by
  have hpos : c.contour.length > 0 := List.length_pos.mpr hne
  simp [Cell.getCentroid, hpos, divide, h]

/-- C15, evaluated where it fails: the one-point polygon `[(5, 7)]` has area 0
and zeroth-order moment 0; `findCentroid` and `Cell::getCentroid` both form
`m10 / m00` on it and yield no value instead of (0, 0); `findCentroid` does the
same on the empty polygon. -/
theorem C15_degenerate_polygon_unguarded :
    polygonArea [(5, 7)] = 0 ∧
    (polygonMoments [(5, 7)]).m00 = 0 ∧
    findCentroid polygonMoments [(5, 7)] = none ∧
    (Cell.getCentroid polygonMoments ⟨[(5, 7)], "empty", 0, 0⟩).1 = none ∧
    findCentroid polygonMoments [] = none := by
  have h1 : (polygonMoments [(5, 7)]).m00 = 0 := by
    norm_num [polygonMoments, greenSums]
  have h0 : (polygonMoments []).m00 = 0 := rfl
  exact ⟨h1, h1, findCentroid_zero_m00 _ _ h1,
    getCentroid_zero_m00 _ ⟨[(5, 7)], "empty", 0, 0⟩ (by decide) h1,
    findCentroid_zero_m00 _ _ h0⟩

/-- C16: for a cell whose polygon has no points, with any state and counters
and for any moments function (none is consulted), `getCentroid()` returns
(0, 0) and `getContourArea()` returns 0, and the cell is as it was. -/
theorem C16_empty_polygon_guard (moments : Contour → Moments) (c : Cell)
    (h : c.contour = []) :
    Cell.getCentroid moments c = (some (0, 0), c) ∧
    Cell.getContourArea moments c = (some 0, c) := by
  simp [Cell.getCentroid, Cell.getContourArea, h]

/-- C16 at the cell with no points, state `red` and counters (3, 1). -/
theorem C16_empty_polygon_guard_witness :
    Cell.getCentroid polygonMoments ⟨[], "red", 3, 1⟩ = (some (0, 0), ⟨[], "red", 3, 1⟩) ∧
    Cell.getContourArea polygonMoments ⟨[], "red", 3, 1⟩ = (some 0, ⟨[], "red", 3, 1⟩) :=
  C16_empty_polygon_guard polygonMoments ⟨[], "red", 3, 1⟩ rfl

/-! ## Populating the board from a frame -/

/-- The ordering step pushes one default-state cell per emitted polygon behind
the cells the board already holds. -/
theorem orderingStep_cells (board : Board) (contours : List Contour)
    (cell_centroids : List Point) (emitted : List Contour)
    (hg : gridOrder contours cell_centroids = some emitted) :
    orderingStep board contours cell_centroids
      = some { cells := board.cells ++ emitted.map fun c => Cell.mk4 c COL_EMPTY 0 0 } := by
  simp [orderingStep, hg]

/-- From a board with zero cells and a non-empty candidate list for which the
ordering step emits the sequence `emitted`, the board afterwards holds exactly
one cell per emitted polygon, in emitted order, each with that polygon; its
cell count is the number of emitted polygons, which is the candidate count in
the wide regime and whenever the candidate count is a perfect square. -/
theorem orderingStep_empty_board (contours : List Contour) (cell_centroids : List Point)
    (emitted : List Contour) (hne : contours ≠ [])
    (hg : gridOrder contours cell_centroids = some emitted) :
    ∃ b, orderingStep ⟨[]⟩ contours cell_centroids = some b ∧
      b.cells.map Cell.contour = emitted ∧
      Board.getNumCells b = emitted.length ∧
      (isWide cell_centroids = some true → Board.getNumCells b = contours.length) ∧
      (∀ k, contours.length = k * k → Board.getNumCells b = contours.length) := by
  refine ⟨_, orderingStep_cells ⟨[]⟩ contours cell_centroids emitted hg, ?_, ?_, ?_, ?_⟩
  · simp [Cell.mk4, Function.comp_def]
  · simp [Board.getNumCells]
  · intro hw
    rw [gridOrder_wide contours cell_centroids hw] at hg
    have : contours.reverse = emitted := Option.some.inj hg
    simp [Board.getNumCells, ← this]
  · intro k hk
    have hpos : 0 < contours.length := List.length_pos.mpr hne
    have hk1 : 1 ≤ k := by
      rcases Nat.eq_zero_or_pos k with h0 | h0
      · rw [h0] at hk
        omega
      · exact h0
    have hs : Nat.sqrt (contours.length + 1) = k := by
      rw [hk]
      exact sqrt_succ_square k hk1
    cases hw : isWide cell_centroids with
    | none => simp [gridOrder, hw] at hg
    | some w =>
      cases w with
      | true =>
        rw [gridOrder_wide contours cell_centroids hw] at hg
        have : contours.reverse = emitted := Option.some.inj hg
        simp [Board.getNumCells, ← this]
      | false =>
        obtain ⟨l, hl, hll⟩ := gridOrder_square contours cell_centroids hw (by rw [hs, hk])
        rw [hl] at hg
        have : l = emitted := Option.some.inj hg
        rw [hs] at hll
        simp only [Board.getNumCells, List.nil_append, List.length_map, ← this, hll, hk]

/-- C17, evaluated where it fails: on a board that already holds one cell, a
frame with two candidates in the wide regime emits two polygons and leaves a
board of three cells, the prior cell followed by the two new ones: the prior
content is not replaced and the cell count is not the candidate count 2. -/
theorem C17_prior_cells_kept :
    isWide [(100, 0), (0, 0)] = some true ∧
    gridOrder [squareAt 100 0, squareAt 0 0] [(100, 0), (0, 0)]
      = some [squareAt 0 0, squareAt 100 0] ∧
    orderingStep ⟨[⟨[(5, 7)], "red", 3, 1⟩]⟩ [squareAt 100 0, squareAt 0 0] [(100, 0), (0, 0)]
      = some ⟨[⟨[(5, 7)], "red", 3, 1⟩, Cell.mk4 (squareAt 0 0) COL_EMPTY 0 0,
          Cell.mk4 (squareAt 100 0) COL_EMPTY 0 0]⟩ ∧
    Board.getNumCells ⟨[⟨[(5, 7)], "red", 3, 1⟩, Cell.mk4 (squareAt 0 0) COL_EMPTY 0 0,
        Cell.mk4 (squareAt 100 0) COL_EMPTY 0 0]⟩ = 3 ∧
    (3 : Nat) ≠ [squareAt 100 0, squareAt 0 0].length := by
  have hw : isWide [(100, 0), (0, 0)] = some true := by decide
  have hg : gridOrder [squareAt 100 0, squareAt 0 0] [(100, 0), (0, 0)]
      = some [squareAt 0 0, squareAt 100 0] := by
    rw [gridOrder_wide _ _ hw]
    rfl
  refine ⟨hw, hg, ?_, rfl, by decide⟩
  rw [orderingStep_cells _ _ _ _ hg]
  rfl

/-- C18, evaluated where it fails: with three candidates `side_len` is 2 and
the square regime reads the raw indices 2, 3, 0, 1; index 3 is not below the
candidate count 3, and the read `contours[3]` is outside the vector. -/
theorem C18_three_candidates_out_of_range :
    squareIndices 3 = [2, 3, 0, 1] ∧
    ¬ ((3 : Int) < ([squareAt 0 0, squareAt 100 0, squareAt 200 0].length : Int)) ∧
    isWide [(0, 0), (100, 0), (200, 0)] = some false ∧
    gridOrder [squareAt 0 0, squareAt 100 0, squareAt 200 0] [(0, 0), (100, 0), (200, 0)]
      = none := by
  have hs : Nat.sqrt 4 = 2 := by
    symm
    rw [Nat.eq_sqrt]
    decide
  have hi : squareIndices 3 = [2, 3, 0, 1] := by
    simp only [squareIndices, hs]
    decide
  have hw : isWide [(0, 0), (100, 0), (200, 0)] = some false := by decide
  refine ⟨hi, by decide, hw, ?_⟩
  simp only [gridOrder, hw, List.length_cons, List.length_nil]
  rw [hi]
  simp [readAll]

/-! ## Repeated state derivation and imported boards -/

/-- Two cells with the same counters get the same result and the same state
from `computeState()`. -/
theorem computeState_same_counters (c d : Cell) (hr : c.area_red = d.area_red)
    (hb : c.area_blue = d.area_blue) :
    (Cell.computeState c).1 = (Cell.computeState d).1 ∧
    (Cell.computeState c).2.state = (Cell.computeState d).2.state := by
  obtain ⟨cz, cr, cb⟩ := computeState_cases c
  obtain ⟨dz, dr, db⟩ := computeState_cases d
  by_cases hz : c.area_red = 0 ∧ c.area_blue = 0
  · rw [cz hz, dz ⟨hr ▸ hz.1, hb ▸ hz.2⟩]
    exact ⟨rfl, rfl⟩
  · have hnz : c.area_red ≠ 0 ∨ c.area_blue ≠ 0 := by omega
    have hnz2 : d.area_red ≠ 0 ∨ d.area_blue ≠ 0 := by omega
    by_cases hg : c.area_red > c.area_blue
    · rw [cr hnz hg, dr hnz2 (by omega)]
      exact ⟨rfl, rfl⟩
    · rw [cb hnz hg, db hnz2 (by omega)]
      exact ⟨rfl, rfl⟩

/-- C19: `computeState()` leaves `area_red`, `area_blue` and the polygon of
every cell as they were, and a second `computeState()` returns the same
boolean and leaves the same state as the first. -/
theorem C19_computeState_changes_state_only (c : Cell) :
    (Cell.computeState c).2.area_red = c.area_red ∧
    (Cell.computeState c).2.area_blue = c.area_blue ∧
    (Cell.computeState c).2.contour = c.contour ∧
    (Cell.computeState (Cell.computeState c).2).1 = (Cell.computeState c).1 ∧
    (Cell.computeState (Cell.computeState c).2).2.state = (Cell.computeState c).2.state := by
  obtain ⟨st, hst⟩ := computeState_frame c
  have h1 : (Cell.computeState c).2.area_red = c.area_red := by rw [hst]
  have h2 : (Cell.computeState c).2.area_blue = c.area_blue := by rw [hst]
  have h3 : (Cell.computeState c).2.contour = c.contour := by rw [hst]
  have h4 := computeState_same_counters (Cell.computeState c).2 c h1 h2
  exact ⟨h1, h2, h3, h4.1, h4.2⟩

/-- Every cell the import loop appends is `red` with counters (1, 0), `blue`
with (0, 1), or `empty` with (0, 0), without a polygon. -/
theorem fromMsg_foldl_cells (l : List MsgCell) (acc : Board)
    (hacc : ∀ c ∈ acc.cells,
      c = Cell.mk3 COL_RED 1 0 ∨ c = Cell.mk3 COL_BLUE 0 1 ∨ c = Cell.mk3 COL_EMPTY 0 0) :
    ∀ c ∈ (l.foldl Board.fromMsgStep acc).cells,
      c = Cell.mk3 COL_RED 1 0 ∨ c = Cell.mk3 COL_BLUE 0 1 ∨ c = Cell.mk3 COL_EMPTY 0 0 := by
  induction l generalizing acc with
  | nil => simpa using hacc
  | cons m ms ih =>
    rw [List.foldl_cons]
    apply ih
    intro c hc
    unfold Board.fromMsgStep at hc
    split_ifs at hc
    all_goals
      first
      | exact hacc c hc
      | (simp only [Board.addCell, List.mem_append, List.mem_singleton] at hc
         rcases hc with hc | hc
         · exact hacc c hc
         · simp [hc])

/-- The three kinds of imported cell keep their state under `computeState()`. -/
theorem computeState_imported (c : Cell)
    (h : c = Cell.mk3 COL_RED 1 0 ∨ c = Cell.mk3 COL_BLUE 0 1 ∨ c = Cell.mk3 COL_EMPTY 0 0) :
    (Cell.computeState c).2 = c := by
  rcases h with rfl | rfl | rfl <;> decide

/-- C20: after `fromMsgBoard(msg)` every cell is `red` with counters (1, 0),
`blue` with (0, 1) or `empty` with (0, 0); a following `Board::computeState()`
leaves the state of every cell unchanged, and the boards before and after it
compare equal. -/
theorem C20_import_self_consistent (b : Board) (msg : MsgBoard) :
    (∀ c ∈ (Board.fromMsgBoard b msg).cells,
      (c.state = COL_RED ∧ c.area_red = 1 ∧ c.area_blue = 0) ∨
      (c.state = COL_BLUE ∧ c.area_red = 0 ∧ c.area_blue = 1) ∨
      (c.state = COL_EMPTY ∧ c.area_red = 0 ∧ c.area_blue = 0)) ∧
    (Board.computeState (Board.fromMsgBoard b msg)).2.states
      = (Board.fromMsgBoard b msg).states ∧
    Board.eq (Board.fromMsgBoard b msg) (Board.computeState (Board.fromMsgBoard b msg)).2
      = true := by
  have hcells := fromMsg_foldl_cells msg.cells (Board.resetBoard b).2 (by
    intro c hc
    simp [Board.resetBoard] at hc)
  have hfix : (Board.computeState (Board.fromMsgBoard b msg)).2 = Board.fromMsgBoard b msg := by
    unfold Board.computeState
    split_ifs with h0
    · rfl
    · have hmap : (Board.fromMsgBoard b msg).cells.map (fun c => (Cell.computeState c).2)
          = (Board.fromMsgBoard b msg).cells := by
        conv_rhs => rw [← List.map_id (Board.fromMsgBoard b msg).cells]
        apply List.map_congr_left
        intro c hc
        exact computeState_imported c (hcells c hc)
      simp only [hmap]
  refine ⟨?_, by rw [hfix], ?_⟩
  · intro c hc
    rcases hcells c hc with rfl | rfl | rfl
    · exact Or.inl ⟨rfl, rfl, rfl⟩
    · exact Or.inr (Or.inl ⟨rfl, rfl, rfl⟩)
    · exact Or.inr (Or.inr ⟨rfl, rfl, rfl⟩)
  · rw [hfix, eq_iff_states]

end ttt
